import Mathlib

/-!
Netify catalog / user controllers: a shallow embedding.

Definitions follow `netflix-api/controllers/CatalogController.js` and
`netflix-api/controllers/UserController.js`.

Conventions of the embedding:
* a JavaScript `Map` is an insertion-ordered association list (`JsMap`);
* `Date.now()` is an explicit clock argument (milliseconds, an integer);
* `undefined` / `null` / a missing property is `none`;
* a thrown `Error` is `Except.error` carrying the message;
* the upstream HTTP client is a function from the request number to its outcome.
-/

namespace Netify

/-! ## JavaScript `Map` -/

/-- A JavaScript `Map`: key/value pairs in insertion order. -/
abbrev JsMap (K V : Type) := List (K × V)

namespace JsMap

variable {K V : Type} [DecidableEq K]

/-- JS `map.get(key)`. -/
def get : JsMap K V → K → Option V
  | [], _ => none
  | (k', v) :: rest, k => if k' = k then some v else get rest k

/-- JS `map.set(key, value)`: an existing key keeps its position and takes the new value,
a new key is appended. -/
def set : JsMap K V → K → V → JsMap K V
  | [], k, v => [(k, v)]
  | (k', v') :: rest, k, v => if k' = k then (k, v) :: rest else (k', v') :: set rest k v

/-- JS `map.delete(key)`. -/
def delete (m : JsMap K V) (k : K) : JsMap K V :=
  m.filter (fun p => decide (p.1 ≠ k))

/-- JS `Array.from(map.values())`. -/
def values (m : JsMap K V) : List V :=
  m.map Prod.snd

/-- JS `new Map(entries)`: the entries are set one after the other. -/
def ofEntries (entries : List (K × V)) : JsMap K V :=
  entries.foldl (fun m e => set m e.1 e.2) []

end JsMap

/-! ## TTL cache (`setCache` / `getCache`) -/

/-- A cache entry `{ expiresAt, value }`. -/
structure CacheEntry (V : Type) where
  expiresAt : Int
  value : V

/-- JS `setCache(map, key, value, ttlMs)` run when `Date.now()` reads `now`. -/
def setCache {V : Type} (now : Int) (map : JsMap String (CacheEntry V)) (key : String)
    (value : V) (ttlMs : Int) : JsMap String (CacheEntry V) :=
  JsMap.set map key { expiresAt := now + ttlMs, value := value }

/-- JS `getCache(map, key)` run when `Date.now()` reads `now`: the returned value
(`none` is `undefined`) and the map afterwards. -/
def getCache {V : Type} (now : Int) (map : JsMap String (CacheEntry V)) (key : String) :
    Option V × JsMap String (CacheEntry V) :=
  match JsMap.get map key with
  | none => (none, map)
  | some entry =>
    if now ≥ entry.expiresAt then (none, JsMap.delete map key)
    else (some entry.value, map)

/-- A cache operation performed by some handler: a write or a read, with the clock reading
at which it runs. -/
inductive CacheOp (V : Type) where
  | write (now : Int) (key : String) (value : V) (ttlMs : Int)
  | read (now : Int) (key : String)

/-- The key a cache operation touches. -/
def CacheOp.key {V : Type} : CacheOp V → String
  | .write _ k _ _ => k
  | .read _ k => k

/-- The map after one cache operation. -/
def CacheOp.apply {V : Type} (map : JsMap String (CacheEntry V)) :
    CacheOp V → JsMap String (CacheEntry V)
  | .write now k v ttl => setCache now map k v ttl
  | .read now k => (getCache now map k).2

/-! ## Upstream client (`tmdbGet`) -/

/-- The error object a failed request rejects with: `err.response.status`,
`err.response.data.status_message`, `err.response.data.message` and `err.message`. -/
structure UpstreamError where
  status : Option Nat
  statusMessage : Option String
  dataMessage : Option String
  message : Option String
  deriving DecidableEq, Repr

/-- The outcome of one `tmdb.get(url)`. -/
inductive Outcome (R : Type) where
  | ok (response : R)
  | fail (err : UpstreamError)
  deriving DecidableEq, Repr

/-- The retry test `status === 429 || (status >= 500 && status <= 599)`; a missing status
compares false. -/
def retryable (status : Option Nat) : Bool :=
  match status with
  | some s => s = 429 || (500 ≤ s && s ≤ 599)
  | none => false

/-- JS `tmdbGet(url, retries)`, where `tmdb n` is the outcome of the `n`-th request sent upstream
and `sent` requests were sent before the call. Returns the outcome and the number of
requests sent so far. -/
def tmdbGet {R : Type} (tmdb : Nat → Outcome R) : (retries : Nat) → (sent : Nat) → Outcome R × Nat
  | retries, sent =>
    match tmdb sent with
    | .ok response => (.ok response, sent + 1)
    | .fail err =>
      match retries with
      | r + 1 =>
        if retryable err.status then tmdbGet tmdb r (sent + 1)
        else (.fail err, sent + 1)
      | 0 => (.fail err, sent + 1)

/-- The default retry budget, `retries = 1`. -/
def tmdbGetDefault {R : Type} (tmdb : Nat → Outcome R) : Outcome R × Nat :=
  tmdbGet tmdb 1 0

/-! ## Error translation (`toHttpError`) -/

/-- Truthiness of a string-valued property: present and non-empty. -/
def truthy (a : Option String) : Bool :=
  match a with
  | some s => s ≠ ""
  | none => false

/-- JS `a || b` on string-valued properties. -/
def jsOr (a b : Option String) : Option String :=
  if truthy a then a else b

/-- JS `a || "literal"`: the result is a string. -/
def jsOrD (a : Option String) (d : String) : String :=
  match a with
  | some s => if s ≠ "" then s else d
  | none => d

/-- A value interpolated in a template literal: `undefined` prints as `undefined`. -/
def interpolate (a : Option String) : String :=
  match a with
  | some s => s
  | none => "undefined"

/-- JS `toHttpError(res, err, fallbackMessage)`: the status set on the response by
`res.status(..)` and the way the call ends (`Except.error msg` is `throw new Error(msg)`,
`Except.ok ()` would be a normal return). `if (status)` holds for a present, non-zero
status. -/
def toHttpError (err : UpstreamError) (fallbackMessage : Option String) : Nat × Except String Unit :=
  let status := err.status
  let tmdbMessage := jsOr (jsOr err.statusMessage err.dataMessage) err.message
  if status = some 401 ∨ status = some 403 then
    (502, .error "TMDB rejected the request (check TMDB_API_KEY)")
  else if status = some 429 then
    (429, .error "Too many requests to TMDB. Please try again in a moment.")
  else
    match status with
    | some s =>
      if s ≠ 0 then
        (502, .error ("TMDB error (" ++ Nat.repr s ++ "): " ++ interpolate tmdbMessage))
      else (502, .error (jsOrD fallbackMessage "Upstream TMDB request failed"))
    | none => (502, .error (jsOrD fallbackMessage "Upstream TMDB request failed"))

/-! ## Bounded concurrency mapper (`mapLimit`) -/

/-- The state shared by the workers of one `mapLimit` call. `workers[w] = some current` means
worker `w` is suspended at `await mapper(items[current], current)`; `none` means its loop has
ended. `invoked` lists the indices the mapper was called on, in call order. A `none` slot of
`results` is a slot not written yet. -/
structure MapLimitState (β : Type) where
  idx : Nat
  results : List (Option β)
  workers : List (Option Nat)
  invoked : List Nat

/-- Worker `w` at the head of `while (idx < items.length)`: it claims `current = idx++`, calls
the mapper and suspends at the `await`, or leaves the loop. -/
def workerLoop {α β : Type} (items : List α) (w : Nat) (st : MapLimitState β) : MapLimitState β :=
  if st.idx < items.length then
    { st with
      idx := st.idx + 1
      workers := st.workers.set w (some st.idx)
      invoked := st.invoked ++ [st.idx] }
  else
    { st with workers := st.workers.set w none }

/-- The state after `Array.from({ length: Math.min(limit, items.length) }).map(async ...)`:
each worker in turn runs synchronously up to its first `await`. -/
def mapLimitStart {α β : Type} (items : List α) (limit : Nat) : MapLimitState β :=
  (List.range (min limit items.length)).foldl
    (fun st w => workerLoop items w { st with workers := st.workers ++ [none] })
    { idx := 0, results := List.replicate items.length none, workers := [], invoked := [] }

/-- The promise awaited by worker `w` resolves: `results[current]` is written and the worker
goes round its loop again. -/
def mapperSettles {α β : Type} (items : List α) (mapper : α → Nat → β) (w : Nat)
    (st : MapLimitState β) : MapLimitState β :=
  match st.workers.getD w none with
  | some current =>
    match items[current]? with
    | some item =>
      workerLoop items w { st with results := st.results.set current (some (mapper item current)) }
    | none => st
  | none => st

/-- The workers that are suspended at an `await`. -/
def pendingWorkers (workers : List (Option Nat)) : List Nat :=
  (List.range workers.length).filter (fun w => (workers.getD w none).isSome)

/-- The event loop: while some mapper call is pending, the scheduler `sched` picks which of
the pending calls completes next (`sched step` is its choice at step `step`). -/
def mapLimitRun {α β : Type} (items : List α) (mapper : α → Nat → β) (sched : Nat → Nat) :
    (fuel : Nat) → (step : Nat) → MapLimitState β → MapLimitState β
  | 0, _, st => st
  | fuel + 1, step, st =>
    match pendingWorkers st.workers with
    | [] => st
    | p :: ps =>
      let w := (p :: ps).getD (sched step % (p :: ps).length) p
      mapLimitRun items mapper sched fuel (step + 1) (mapperSettles items mapper w st)

/-- JS `mapLimit(items, limit, mapper)` for a mapper that never fails, under the completion order
chosen by `sched`: `some (results, invoked)` once `Promise.all(workers)` has resolved, `none`
if a worker were still pending after `items.length` completions. -/
def mapLimit {α β : Type} (items : List α) (limit : Nat) (mapper : α → Nat → β)
    (sched : Nat → Nat) : Option (List (Option β) × List Nat) :=
  let st := mapLimitRun items mapper sched items.length 0 (mapLimitStart items limit)
  if pendingWorkers st.workers = [] then some (st.results, st.invoked) else none

/-! ## Genre merge (`getGenres`) -/

/-- An upstream genre record `{ id, name }`. -/
structure Genre where
  id : Int
  name : String
  deriving DecidableEq, Repr

/-- The `genres` of the payload built by `getGenres` on a cache miss from the two upstream
responses (`data?.genres ?? []` each, `none` when the field is missing). -/
def getGenresDeduped (movieData tvData : Option (List Genre)) : List Genre :=
  let movieGenres := movieData.getD []
  let tvGenres := tvData.getD []
  let merged := movieGenres ++ tvGenres
  JsMap.values (JsMap.ofEntries (merged.map (fun g => (g.id, g))))

/-! ## Catalog normalizer (`toItem`) -/

/-- A raw upstream record, with the properties `toItem` reads. -/
structure RawRecord where
  id : Option Int
  name : Option String
  title : Option String
  original_name : Option String
  original_title : Option String
  overview : Option String
  first_air_date : Option String
  release_date : Option String
  backdrop_path : Option String
  poster_path : Option String
  genre_ids : Option (List Int)
  deriving DecidableEq, Repr

/-- The item shape returned by `toItem`. -/
structure CatalogItem where
  id : Option Int
  type : String
  title : String
  overview : String
  year : String
  image : Option String
  genres : List String
  deriving DecidableEq, Repr

/-- JS `toItem(raw, type, genresById)`. -/
def toItem (raw : RawRecord) (type : String) (genresById : JsMap Int String) : CatalogItem :=
  let genreNames :=
    (((raw.genre_ids.getD []).map (fun id => JsMap.get genresById id)).filter truthy).take 3
  let date := if type = "tv" then raw.first_air_date else raw.release_date
  let year := if truthy date then (interpolate date).take 4 else ""
  { id := raw.id
    type := type
    title := jsOrD (jsOr (jsOr (jsOr raw.name raw.title) raw.original_name) raw.original_title) ""
    overview := jsOrD raw.overview ""
    year := year
    image := jsOr (jsOr raw.backdrop_path raw.poster_path) none
    genres := genreNames.filterMap id }

/-! ## Discover cache key (`discoverItems`) -/

/-- JS `page || 1` on a non-negative integer page. -/
def pageOr1 (page : Nat) : Nat :=
  if page = 0 then 1 else page

/-- The cache key built at the head of `discoverItems`. -/
def discoverCacheKey (type genre sortBy year : String) (page : Nat) : String :=
  "discover:" ++ type ++ ":" ++ jsOrD (some genre) "" ++ ":" ++ jsOrD (some sortBy) "" ++ ":" ++
    jsOrD (some year) "" ++ ":" ++ Nat.repr (pageOr1 page)

/-! ## Request validation (`discover`, `sections`, `trailer`) -/

/-- The part of `process.env` read by `getApiKey`. -/
structure Env where
  TMDB_API_KEY : Option String
  API_KEY : Option String
  deriving DecidableEq, Repr

/-- The query string of a catalog request: `req.query.type`, `.genres`, `.id`, and the
parameters handed on unchanged (`.genre`, `.year`, `.sortBy`, `.page`). -/
structure Query where
  type : Option String
  genres : Option String
  id : Option String
  genre : Option String
  year : Option String
  sortBy : Option String
  page : Option String
  deriving DecidableEq, Repr

/-- White space as removed by `String.prototype.trim`. -/
def jsWhiteSpace (c : Char) : Bool :=
  c.toNat = 0x09 || c.toNat = 0x0A || c.toNat = 0x0B || c.toNat = 0x0C || c.toNat = 0x0D ||
  c.toNat = 0x20 || c.toNat = 0xA0 || c.toNat = 0x1680 ||
  (0x2000 ≤ c.toNat && c.toNat ≤ 0x200A) ||
  c.toNat = 0x2028 || c.toNat = 0x2029 || c.toNat = 0x202F || c.toNat = 0x205F ||
  c.toNat = 0x3000 || c.toNat = 0xFEFF

/-- JS `s.trim()`. -/
def jsTrim (s : String) : String :=
  String.mk (((s.data.dropWhile jsWhiteSpace).reverse.dropWhile jsWhiteSpace).reverse)

/-- JS `getApiKey()`: the trimmed key, or `throw new Error("TMDB_API_KEY is not configured")`. -/
def getApiKey (env : Env) : Except String String :=
  let key := jsTrim (jsOrD (jsOr env.TMDB_API_KEY env.API_KEY) "")
  if key = "" then .error "TMDB_API_KEY is not configured" else .ok key

/-- An I/O action of a handler. -/
inductive Effect where
  | cacheRead (key : String)
  | cacheWrite (key : String)
  | upstreamGet (url : String)
  deriving DecidableEq, Repr

/-- How a handler run ends: `res.statusCode` (200 unless `res.status(..)` was called), the
message of the error it threw if it threw, and the I/O it performed, in order. -/
structure HandlerRun where
  statusCode : Nat
  thrown : Option String
  effects : List Effect
  deriving DecidableEq, Repr

/-- The status sent to the client. A thrown error reaches the error middleware of `server.js`:
`res.statusCode && res.statusCode !== 200 ? res.statusCode : 500`. -/
def httpStatus (run : HandlerRun) : Nat :=
  match run.thrown with
  | some _ => if run.statusCode ≠ 0 ∧ run.statusCode ≠ 200 then run.statusCode else 500
  | none => run.statusCode

/-- The `discover` handler. `rest apiKey type query` is the remainder of the handler after the
type check (parameter defaults, `discoverItems`, `toHttpError`). -/
def discover (env : Env) (query : Query) (rest : String → String → Query → HandlerRun) :
    HandlerRun :=
  match getApiKey env with
  | .error msg => { statusCode := 200, thrown := some msg, effects := [] }
  | .ok apiKey =>
    let type := jsOrD query.type "movie"
    if type ≠ "movie" ∧ type ≠ "tv" then
      { statusCode := 400, thrown := some "Invalid type", effects := [] }
    else rest apiKey type query

/-- The `trailer` handler. `rest apiKey type id` is the remainder of the handler after the two
checks (the `try` block). -/
def trailer (env : Env) (query : Query) (rest : String → String → String → HandlerRun) :
    HandlerRun :=
  match getApiKey env with
  | .error msg => { statusCode := 200, thrown := some msg, effects := [] }
  | .ok apiKey =>
    let type := jsOrD query.type "movie"
    let id := jsOrD query.id ""
    if id = "" then
      { statusCode := 400, thrown := some "Missing id", effects := [] }
    else if type ≠ "movie" ∧ type ≠ "tv" then
      { statusCode := 400, thrown := some "Invalid type", effects := [] }
    else rest apiKey type id

/-- JS `s.split(sep)` on the characters of `s`, for a one-character separator: the pieces between
the separators, empty pieces included (the split of the empty string is one empty piece). -/
def splitChars (sep : Char) : List Char → List (List Char)
  | [] => [[]]
  | c :: rest =>
    if c = sep then [] :: splitChars sep rest
    else
      match splitChars sep rest with
      | piece :: more => (c :: piece) :: more
      | [] => [[c]]

/-- JS `s.split(",")`. -/
def splitComma (s : String) : List String :=
  (splitChars ',' s.data).map String.mk

/-- The `genreIds` of `sections`: `genres.split(",").map((x) => x.trim()).filter(Boolean)`. -/
def sectionGenreIds (genres : String) : List String :=
  ((splitComma genres).map jsTrim).filter (fun x => decide (x ≠ ""))

/-- The `sections` handler. `rest apiKey type genreIds year` is the remainder of the handler
after the checks (the `try` block). -/
def sections (env : Env) (query : Query)
    (rest : String → String → List String → String → HandlerRun) : HandlerRun :=
  match getApiKey env with
  | .error msg => { statusCode := 200, thrown := some msg, effects := [] }
  | .ok apiKey =>
    let type := jsOrD query.type "movie"
    if type ≠ "movie" ∧ type ≠ "tv" then
      { statusCode := 400, thrown := some "Invalid type", effects := [] }
    else
      let genres := jsOrD query.genres ""
      let year := if truthy query.year then interpolate query.year else ""
      let genreIds := sectionGenreIds genres
      if genreIds.length = 0 then
        { statusCode := 400, thrown := some "Missing genres", effects := [] }
      else rest apiKey type genreIds year

/-! ## Trailer selection (`trailer`) -/

/-- An upstream video record, with the properties `trailer` reads. -/
structure Video where
  site : Option String
  type : Option String
  key : Option String
  deriving DecidableEq, Repr

/-- JS `s.toLowerCase()`, on the ASCII letters. The results are only compared with `youtube`,
`trailer` and `teaser`, and no letter outside ASCII lowercases to a letter of these words, so
the comparisons agree with those of the full Unicode mapping. -/
def toLowerCase (s : String) : String :=
  String.mk (s.data.map Char.toLower)

/-- The filter `(v.site || "").toLowerCase() === "youtube" && v.key`. -/
def isYoutube (v : Video) : Bool :=
  toLowerCase (jsOrD v.site "") = "youtube" && truthy v.key

/-- The test `(v.type || "").toLowerCase() === kind`. -/
def hasType (kind : String) (v : Video) : Bool :=
  toLowerCase (jsOrD v.type "") = kind

/-- JS `a || b` on the result of `Array.prototype.find` (a record is truthy). -/
def orElseVideo (a b : Option Video) : Option Video :=
  match a with
  | some v => some v
  | none => b

/-- The `youtubeKey` of the payload built by `trailer` from the upstream `results`
(`none` is `null`). -/
def youtubeKey (results : List Video) : Option String :=
  let youtube := results.filter isYoutube
  let preferred :=
    orElseVideo (orElseVideo (youtube.find? (hasType "trailer")) (youtube.find? (hasType "teaser")))
      youtube.head?
  match preferred with
  | some v => v.key
  | none => none

/-! ## User lists (`normalizeItem`, `like`, `addToMyList`) -/

/-- A value of a parsed JSON body. An object or array is given by its JSON text; `undefined`
is a missing property. -/
inductive JsVal where
  | undefined
  | null
  | bool (b : Bool)
  | num (n : Int)
  | str (s : String)
  | object (json : String)
  deriving DecidableEq, Repr

/-- JavaScript truthiness. -/
def JsVal.truthy : JsVal → Bool
  | .undefined => false
  | .null => false
  | .bool b => b
  | .num n => n ≠ 0
  | .str s => s ≠ ""
  | .object _ => true

/-- JS `a || b`. -/
def JsVal.or (a b : JsVal) : JsVal :=
  if a.truthy then a else b

/-- JS `a === b` between a value read from the stored document and a value of the request body:
primitives compare by type and value, two objects are never the same reference. -/
def JsVal.strictEq : JsVal → JsVal → Bool
  | .undefined, .undefined => true
  | .null, .null => true
  | .bool a, .bool b => a = b
  | .num a, .num b => a = b
  | .str a, .str b => a = b
  | _, _ => false

/-- A number, string or boolean. -/
def JsVal.isPrimitive : JsVal → Bool
  | .bool _ => true
  | .num _ => true
  | .str _ => true
  | _ => false

/-- The properties of `req.body.data` read by `normalizeItem`; `genres` is `some` exactly when
`Array.isArray(data.genres)`. -/
structure ItemData where
  id : JsVal
  type : JsVal
  title : JsVal
  name : JsVal
  overview : JsVal
  year : JsVal
  image : JsVal
  genres : Option (List JsVal)
  deriving DecidableEq, Repr

/-- A stored list item. -/
structure ListItem where
  id : JsVal
  type : JsVal
  title : JsVal
  overview : JsVal
  year : JsVal
  image : JsVal
  genres : List JsVal
  deriving DecidableEq, Repr

/-- JS `normalizeItem(data)`; `data = none` is a body whose `data` is missing or not an object,
the result `none` is `null`. -/
def normalizeItem (data : Option ItemData) : Option ListItem :=
  match data with
  | none => none
  | some data =>
    if data.id = .undefined ∨ data.id = .null then none
    else
      some
        { id := data.id
          type := JsVal.or data.type (.str "movie")
          title := JsVal.or (JsVal.or data.title data.name) (.str "")
          overview := JsVal.or data.overview (.str "")
          year := JsVal.or data.year (.str "")
          image := JsVal.or data.image .null
          genres := data.genres.getD [] }

/-- The user document fields the list handlers use. -/
structure User where
  liked : List ListItem
  myList : List ListItem
  deriving DecidableEq, Repr

/-- The `like` handler: `user` is what `getOrCreateUser` returned (`none` is `null`). The result
is the status and message of the failure, or the user document after the call (the response
body is its `liked`). -/
def like (user : Option User) (data : Option ItemData) : Except (Nat × String) User :=
  match normalizeItem data with
  | none => .error (400, "Invalid item")
  | some item =>
    match user with
    | none => .error (404, "User not found")
    | some user =>
      let found := user.liked.any (fun x => JsVal.strictEq x.id item.id && JsVal.strictEq x.type item.type)
      if !found then .ok { user with liked := user.liked ++ [item] }
      else .ok user

/-- The `addToMyList` handler, as `like` on `myList`. -/
def addToMyList (user : Option User) (data : Option ItemData) : Except (Nat × String) User :=
  match normalizeItem data with
  | none => .error (400, "Invalid item")
  | some item =>
    match user with
    | none => .error (404, "User not found")
    | some user =>
      let found := user.myList.any (fun x => JsVal.strictEq x.id item.id && JsVal.strictEq x.type item.type)
      if !found then .ok { user with myList := user.myList ++ [item] }
      else .ok user

/-- Two list items carry the same `(id, type)` pair. -/
def samePair (a b : ListItem) : Prop :=
  a.id = b.id ∧ a.type = b.type

instance (a b : ListItem) : Decidable (samePair a b) := by
  unfold samePair; infer_instance

/-! ## Specification-side definitions -/

/-- The invariant of a `mapLimit` run. -/
structure MapLimitInv {α β : Type} (items : List α) (mapper : α → Nat → β)
    (st : MapLimitState β) : Prop where
  len : st.results.length = items.length
  idx_le : st.idx ≤ items.length
  calls : st.invoked = List.range st.idx
  slots : ∀ i x, i < st.idx → items[i]? = some x →
    st.results[i]? = some (some (mapper x i)) ∨ some i ∈ st.workers
  claimed : ∀ c, some c ∈ st.workers → c < st.idx
  busy : st.idx < items.length → st.workers ≠ [] ∧ ∀ s ∈ st.workers, s ≠ none

/-- What is left to do: unclaimed indices plus pending mapper calls. -/
def mapLimitMeasure {α β : Type} (items : List α) (st : MapLimitState β) : Nat :=
  (items.length - st.idx) + st.workers.countP Option.isSome

/-- The first non-empty string of a list of optional strings, else the empty string. -/
def firstNonEmpty : List (Option String) → String
  | [] => ""
  | a :: rest => if truthy a then interpolate a else firstNonEmpty rest

/-! ## Bounded concurrency mapper with a mapper that can fail -/

/-- The state of a `mapLimit` run whose mapper can fail: the shared state of the workers and the
rejected mapper calls `(index, error)` in the order they were rejected. A worker whose `await`
threw has left its loop (its slot in `workers` is `none`), and its promise is rejected. -/
structure MapLimitFailState (ε β : Type) where
  st : MapLimitState β
  failures : List (Nat × ε)

/-- The promise awaited by worker `w` settles. The mapper is an async function: `mapper x i` is
the way the promise it returned settles. When it is fulfilled `results[current]` is written and
the worker goes round its loop again; when it is rejected the `await` throws, the worker leaves
its loop and its own promise is rejected. Nothing is done to the other workers. -/
def mapperSettlesE {α ε β : Type} (items : List α) (mapper : α → Nat → Except ε β) (w : Nat)
    (s : MapLimitFailState ε β) : MapLimitFailState ε β :=
  match s.st.workers.getD w none with
  | some current =>
    match items[current]? with
    | some item =>
      match mapper item current with
      | .ok value =>
        { s with
          st := workerLoop items w { s.st with results := s.st.results.set current (some value) } }
      | .error e =>
        { st := { s.st with workers := s.st.workers.set w none }
          failures := s.failures ++ [(current, e)] }
    | none => s
  | none => s

/-- The event loop with a mapper that can fail: as `mapLimitRun`, it goes on while some mapper
call is pending, also after a worker was rejected. -/
def mapLimitRunE {α ε β : Type} (items : List α) (mapper : α → Nat → Except ε β)
    (sched : Nat → Nat) : (fuel : Nat) → (step : Nat) → MapLimitFailState ε β →
      MapLimitFailState ε β
  | 0, _, s => s
  | fuel + 1, step, s =>
    match pendingWorkers s.st.workers with
    | [] => s
    | p :: ps =>
      let w := (p :: ps).getD (sched step % (p :: ps).length) p
      mapLimitRunE items mapper sched fuel (step + 1) (mapperSettlesE items mapper w s)

/-- The state in which a `mapLimit` call leaves the workers once `items.length` mapper calls
have settled, under the completion order chosen by `sched`. -/
def mapLimitSettled {α ε β : Type} (items : List α) (limit : Nat)
    (mapper : α → Nat → Except ε β) (sched : Nat → Nat) : MapLimitFailState ε β :=
  mapLimitRunE items mapper sched items.length 0 { st := mapLimitStart items limit, failures := [] }

/-- The way `await Promise.all(workers); return results` ends: `Promise.all` is rejected with
the error of the first worker that was rejected, otherwise `results` is returned. -/
def mapLimitOutcome {ε β : Type} (s : MapLimitFailState ε β) : Except ε (List (Option β)) :=
  match s.failures with
  | [] => .ok s.st.results
  | (_, e) :: _ => .error e

/-- JS `mapLimit(items, limit, mapper)` for a mapper that can fail, under the completion order
chosen by `sched`: how the call ends, and the indices the mapper was invoked on until every
worker has ended (`none` if a worker were still pending after `items.length` completions). -/
def mapLimitE {α ε β : Type} (items : List α) (limit : Nat) (mapper : α → Nat → Except ε β)
    (sched : Nat → Nat) : Option (Except ε (List (Option β)) × List Nat) :=
  let s := mapLimitSettled items limit mapper sched
  if pendingWorkers s.st.workers = [] then some (mapLimitOutcome s, s.st.invoked) else none

/-- The invariant of a `mapLimit` run whose mapper can fail. -/
structure MapLimitFailInv {α ε β : Type} (items : List α) (limit : Nat)
    (mapper : α → Nat → Except ε β) (s : MapLimitFailState ε β) : Prop where
  len : s.st.results.length = items.length
  idx_le : s.st.idx ≤ items.length
  calls : s.st.invoked = List.range s.st.idx
  claimed : ∀ c, some c ∈ s.st.workers → c < s.st.idx
  slots : ∀ i x v, i < s.st.idx → items[i]? = some x → mapper x i = .ok v →
    s.st.results[i]? = some (some v) ∨ some i ∈ s.st.workers
  settled : ∀ i x e, i < s.st.idx → items[i]? = some x → mapper x i = .error e →
    (i, e) ∈ s.failures ∨ some i ∈ s.st.workers
  sound : ∀ i e, (i, e) ∈ s.failures →
    i < s.st.idx ∧ ∃ x, items[i]? = some x ∧ mapper x i = .error e
  live : s.st.idx < items.length →
    s.st.workers.countP Option.isSome + s.failures.length = min limit items.length
  bounded : s.st.workers.countP Option.isSome + s.failures.length ≤ min limit items.length

/-! # Theorems -/

/-! ## `JsMap` lemmas -/

namespace JsMap

variable {K V : Type} [DecidableEq K]

theorem get_set_self (m : JsMap K V) (k : K) (v : V) : get (set m k v) k = some v := by
  induction m with
  | nil => simp [set, get]
  | cons p rest ih =>
    obtain ⟨k', v'⟩ := p
    by_cases h : k' = k
    · simp [set, get, h]
    · simp [set, get, h, ih]

theorem get_set_ne (m : JsMap K V) (k k' : K) (v : V) (h : k ≠ k') :
    get (set m k v) k' = get m k' := by
  induction m with
  | nil => simp [set, get, h]
  | cons p rest ih =>
    obtain ⟨k0, v0⟩ := p
    by_cases h0 : k0 = k
    · subst h0
      simp [set, get, h]
    · by_cases h1 : k0 = k'
      · subst h1
        simp [set, get, h0]
      · simp [set, get, h0, h1, ih]

theorem get_delete_self (m : JsMap K V) (k : K) : get (delete m k) k = none := by
  induction m with
  | nil => simp [delete, get]
  | cons p rest ih =>
    obtain ⟨k0, v0⟩ := p
    by_cases h0 : k0 = k
    · simpa [delete, List.filter_cons, h0] using ih
    · simpa [delete, List.filter_cons, h0, get] using ih

theorem get_delete_ne (m : JsMap K V) (k k' : K) (h : k ≠ k') :
    get (delete m k) k' = get m k' := by
  induction m with
  | nil => simp [delete, get]
  | cons p rest ih =>
    obtain ⟨k0, v0⟩ := p
    by_cases h0 : k0 = k
    · subst h0
      simpa [delete, List.filter_cons, get, h] using ih
    · by_cases h1 : k0 = k'
      · subst h1
        simp [delete, List.filter_cons, h0, get]
      · simpa [delete, List.filter_cons, h0, get, h1] using ih

end JsMap

/-! ## TTL cache -/

theorem CacheOp.apply_get_other {V : Type} (map : JsMap String (CacheEntry V)) (op : CacheOp V)
    (key : String) (h : op.key ≠ key) :
    JsMap.get (CacheOp.apply map op) key = JsMap.get map key := by
  cases op with
  | write now k v ttl =>
    simp only [CacheOp.key] at h
    simp only [CacheOp.apply, setCache]
    exact JsMap.get_set_ne _ _ _ _ h
  | read now k =>
    simp only [CacheOp.key] at h
    simp only [CacheOp.apply, getCache]
    cases hg : JsMap.get map k with
    | none => simp
    | some entry =>
      by_cases hexp : now ≥ entry.expiresAt
      · simp [hexp, JsMap.get_delete_ne _ _ _ h]
      · simp [hexp]

theorem foldl_apply_get_other {V : Type} (later : List (CacheOp V)) (key : String)
    (hkeys : ∀ op ∈ later, op.key ≠ key) (map : JsMap String (CacheEntry V)) :
    JsMap.get (later.foldl CacheOp.apply map) key = JsMap.get map key := by
  induction later generalizing map with
  | nil => rfl
  | cons op rest ih =>
    simp only [List.foldl_cons]
    rw [ih (fun o ho => hkeys o (List.mem_cons_of_mem _ ho))]
    exact CacheOp.apply_get_other map op key (hkeys op (List.mem_cons_self _ _))

/-- C1: after `setCache(map, key, value, ttl)` at clock `t0`, followed by any cache operations
on other keys, `getCache(map, key)` at clock `t ≥ t0` returns the stored value when
`t < t0 + ttl`, and returns `undefined` and leaves the key absent when `t ≥ t0 + ttl`;
and a read of any map only ever returns the value of an entry whose `expiresAt` is still
ahead of the clock. -/
theorem getCache_after_setCache {V : Type} (map : JsMap String (CacheEntry V)) (key : String)
    (value : V) (ttl t0 t : Int) (later : List (CacheOp V))
    (hkeys : ∀ op ∈ later, op.key ≠ key) (_ht : t0 ≤ t) :
    (t < t0 + ttl →
      getCache t (later.foldl CacheOp.apply (setCache t0 map key value ttl)) key
        = (some value, later.foldl CacheOp.apply (setCache t0 map key value ttl))) ∧
    (t0 + ttl ≤ t →
      (getCache t (later.foldl CacheOp.apply (setCache t0 map key value ttl)) key).1 = none ∧
      JsMap.get (getCache t (later.foldl CacheOp.apply (setCache t0 map key value ttl)) key).2 key
        = none) ∧
    (∀ (now : Int) (m : JsMap String (CacheEntry V)) (k : String) (v : V),
      (getCache now m k).1 = some v →
        ∃ entry, JsMap.get m k = some entry ∧ entry.value = v ∧ now < entry.expiresAt) := by
  have hget : JsMap.get (later.foldl CacheOp.apply (setCache t0 map key value ttl)) key
      = some { expiresAt := t0 + ttl, value := value } := by
    rw [foldl_apply_get_other later key hkeys]
    exact JsMap.get_set_self _ _ _
  refine ⟨?_, ?_, ?_⟩
  · intro hlt
    have : ¬ (t ≥ t0 + ttl) := by omega
    simp [getCache, hget, this]
  · intro hge
    have : t ≥ t0 + ttl := hge
    simp [getCache, hget, this, JsMap.get_delete_self]
  · intro now m k v h
    unfold getCache at h
    cases hg : JsMap.get m k with
    | none => simp [hg] at h
    | some entry =>
      by_cases hexp : now ≥ entry.expiresAt
      · simp [hg, hexp] at h
      · simp [hg, hexp] at h
        exact ⟨entry, rfl, h, by omega⟩

/-- Witness for C1: a value stored at clock 1000 with a TTL of 60000 ms, a write to another
key in between, read back at clock 2000. -/
theorem getCache_after_setCache_witness :
    getCache 2000 ((CacheOp.write 1500 "genres:tv" 8 5).apply (setCache 1000 [] "genres:merged" 7 60000))
      "genres:merged"
      = (some 7, (CacheOp.write 1500 "genres:tv" 8 5).apply (setCache 1000 [] "genres:merged" 7 60000)) :=
  (getCache_after_setCache ([] : JsMap String (CacheEntry Nat)) "genres:merged" 7 60000 1000 2000
    [CacheOp.write 1500 "genres:tv" 8 5]
    (by intro op hop; simp at hop; subst hop; simp [CacheOp.key]) (by decide)).1 (by decide)

/-! ## Upstream client -/

/-- C2: with the default retry budget `tmdbGet` sends one or two requests; it sends a second
one exactly when the first failed with status 429 or a status in 500..599; its result is the
outcome of the last request sent. So a 500 followed by a success succeeds, two 500s fail after
exactly 2 requests, and a first failure with any other status or with no status fails after
exactly 1 request. -/
theorem tmdbGet_default_retry_bound {R : Type} (tmdb : Nat → Outcome R) :
    (1 ≤ (tmdbGetDefault tmdb).2 ∧ (tmdbGetDefault tmdb).2 ≤ 2) ∧
    ((tmdbGetDefault tmdb).2 = 2 ↔
      ∃ err, tmdb 0 = .fail err ∧
        (err.status = some 429 ∨ ∃ s, err.status = some s ∧ 500 ≤ s ∧ s ≤ 599)) ∧
    (tmdbGetDefault tmdb).1 = tmdb ((tmdbGetDefault tmdb).2 - 1) ∧
    (∀ e0 resp, tmdb 0 = .fail e0 → e0.status = some 500 → tmdb 1 = .ok resp →
      tmdbGetDefault tmdb = (.ok resp, 2)) ∧
    (∀ e0 e1, tmdb 0 = .fail e0 → e0.status = some 500 → tmdb 1 = .fail e1 →
      e1.status = some 500 → tmdbGetDefault tmdb = (.fail e1, 2)) ∧
    (∀ e0, tmdb 0 = .fail e0 →
      (∀ s, e0.status = some s → s ≠ 429 ∧ ¬ (500 ≤ s ∧ s ≤ 599)) →
      tmdbGetDefault tmdb = (.fail e0, 1)) := by
  have hretry : ∀ st : Option Nat, retryable st = true ↔
      (st = some 429 ∨ ∃ s, st = some s ∧ 500 ≤ s ∧ s ≤ 599) := by
    intro st
    cases st with
    | none => simp [retryable]
    | some s => simp [retryable]
  have hshape : tmdbGetDefault tmdb =
      match tmdb 0 with
      | .ok r => (.ok r, 1)
      | .fail e => if retryable e.status then (tmdb 1, 2) else (.fail e, 1) := by
    unfold tmdbGetDefault
    cases h0 : tmdb 0 with
    | ok r0 => simp [tmdbGet, h0]
    | fail e0 =>
      cases h1 : tmdb 1 with
      | ok r1 => by_cases hr : retryable e0.status = true <;> simp [tmdbGet, h0, h1, hr]
      | fail e1 => by_cases hr : retryable e0.status = true <;> simp [tmdbGet, h0, h1, hr]
  rw [hshape]
  cases h0 : tmdb 0 with
  | ok r0 =>
    refine ⟨⟨by simp, by simp⟩, ?_, by simp [h0], ?_, ?_, ?_⟩
    · constructor
      · intro h; simp at h
      · rintro ⟨err, herr, _⟩; cases herr
    · intro e0 resp h; cases h
    · intro e0 e1 h; cases h
    · intro e0 h; cases h
  | fail e0 =>
    by_cases hr : retryable e0.status = true
    · have hr' := (hretry e0.status).1 hr
      simp only [hr, if_true]
      refine ⟨⟨by simp, by simp⟩, ?_, by simp, ?_, ?_, ?_⟩
      · constructor
        · intro _; exact ⟨e0, rfl, hr'⟩
        · intro _; trivial
      · intro e resp he _ h1
        rw [h1]
      · intro e e1 he _ h1 _
        rw [h1]
      · intro e he hno
        cases he
        exfalso
        rcases hr' with h429 | ⟨s, hs, hlo, hhi⟩
        · exact (hno 429 h429).1 rfl
        · exact (hno s hs).2 ⟨hlo, hhi⟩
    · have hr' : ¬ (e0.status = some 429 ∨ ∃ s, e0.status = some s ∧ 500 ≤ s ∧ s ≤ 599) :=
        fun h => hr ((hretry e0.status).2 h)
      simp only [hr]
      refine ⟨⟨by simp, by simp⟩, ?_, by simp [h0], ?_, ?_, ?_⟩
      · constructor
        · intro h; simp at h
        · rintro ⟨err, herr, hst⟩
          cases herr
          exact absurd hst hr'
      · intro e resp he hst _
        cases he
        exact absurd (Or.inr ⟨500, hst, by omega, by omega⟩) hr'
      · intro e e1 he hst _ _
        cases he
        exact absurd (Or.inr ⟨500, hst, by omega, by omega⟩) hr'
      · intro e he _
        cases he
        rfl

/-- Witness for C2: a 500 followed by a success. -/
theorem tmdbGet_default_retry_bound_witness :
    tmdbGetDefault (fun n => if n = 0 then Outcome.fail ⟨some 500, none, none, none⟩
      else Outcome.ok "page") = (Outcome.ok "page", 2) :=
  (tmdbGet_default_retry_bound (fun n => if n = 0 then Outcome.fail ⟨some 500, none, none, none⟩
      else Outcome.ok "page")).2.2.2.1 ⟨some 500, none, none, none⟩ "page" rfl rfl rfl

/-! ## Bounded concurrency mapper -/

theorem mem_pendingWorkers (ws : List (Option Nat)) (w : Nat) :
    w ∈ pendingWorkers ws ↔ ∃ c, ws[w]? = some (some c) := by
  unfold pendingWorkers
  rw [List.mem_filter, List.mem_range]
  constructor
  · rintro ⟨hlt, hsome⟩
    rw [List.getD_eq_getElem?_getD, List.getElem?_eq_getElem hlt] at hsome
    simp only [Option.getD_some] at hsome
    obtain ⟨c, hc⟩ := Option.isSome_iff_exists.1 hsome
    exact ⟨c, by rw [List.getElem?_eq_getElem hlt, hc]⟩
  · rintro ⟨c, hc⟩
    have hlt : w < ws.length := by
      by_contra hge
      rw [List.getElem?_eq_none (by omega)] at hc
      cases hc
    refine ⟨hlt, ?_⟩
    rw [List.getD_eq_getElem?_getD, hc]
    rfl

theorem countP_set_some (ws : List (Option Nat)) (w c x : Nat) (h : ws[w]? = some (some c)) :
    (ws.set w (some x)).countP Option.isSome = ws.countP Option.isSome := by
  induction ws generalizing w with
  | nil => simp at h
  | cons a rest ih =>
    cases w with
    | zero =>
      simp at h
      subst h
      simp [List.countP_cons]
    | succ w =>
      simp at h
      simp [List.countP_cons, ih w h]

theorem countP_set_none (ws : List (Option Nat)) (w c : Nat) (h : ws[w]? = some (some c)) :
    (ws.set w none).countP Option.isSome + 1 = ws.countP Option.isSome := by
  induction ws generalizing w with
  | nil => simp at h
  | cons a rest ih =>
    cases w with
    | zero =>
      simp at h
      subst h
      simp [List.countP_cons]
    | succ w =>
      simp at h
      have := ih w h
      simp [List.countP_cons]
      omega

theorem mem_set_of_mem_ne (ws : List (Option Nat)) (w c i : Nat) (x : Option Nat)
    (h : ws[w]? = some (some c)) (hi : some i ∈ ws) (hne : i ≠ c) : some i ∈ ws.set w x := by
  obtain ⟨j, hj⟩ := List.mem_iff_getElem?.1 hi
  have hjw : w ≠ j := by
    intro hEq
    subst hEq
    rw [h] at hj
    simp at hj
    exact hne hj.symm
  apply List.mem_iff_getElem?.2
  exact ⟨j, by rw [List.getElem?_set_ne hjw]; exact hj⟩

theorem mem_set_self_of_lt (ws : List (Option Nat)) (w : Nat) (x : Option Nat)
    (h : w < ws.length) : x ∈ ws.set w x := by
  apply List.mem_iff_getElem?.2
  exact ⟨w, by rw [List.getElem?_set_self]; simp [h]⟩

theorem mapperSettles_inv {α β : Type} (items : List α) (mapper : α → Nat → β)
    (st : MapLimitState β) (w : Nat) (hinv : MapLimitInv items mapper st)
    (hw : w ∈ pendingWorkers st.workers) :
    MapLimitInv items mapper (mapperSettles items mapper w st) ∧
      mapLimitMeasure items (mapperSettles items mapper w st) + 1 = mapLimitMeasure items st := by
  obtain ⟨c, hc⟩ := (mem_pendingWorkers _ _).1 hw
  have hcmem : some c ∈ st.workers := List.mem_iff_getElem?.2 ⟨w, hc⟩
  have hcidx : c < st.idx := hinv.claimed c hcmem
  have hcn : c < items.length := lt_of_lt_of_le hcidx hinv.idx_le
  have hwlt : w < st.workers.length := by
    by_contra hge
    rw [List.getElem?_eq_none (by omega)] at hc
    cases hc
  have hitem : items[c]? = some items[c] := List.getElem?_eq_getElem hcn
  have hgetD : st.workers.getD w none = some c := by
    rw [List.getD_eq_getElem?_getD, hc]; rfl
  have hstep : mapperSettles items mapper w st =
      workerLoop items w { st with results := st.results.set c (some (mapper items[c] c)) } := by
    simp only [mapperSettles, hgetD, hitem]
  rw [hstep]
  have hslot : ∀ i x, i < st.idx → items[i]? = some x →
      (st.results.set c (some (mapper items[c] c)))[i]? = some (some (mapper x i)) ∨
        (i ≠ c ∧ some i ∈ st.workers) := by
    intro i x hi hx
    by_cases hic : i = c
    · subst hic
      left
      rw [hitem] at hx
      cases hx
      rw [List.getElem?_set_self (by rw [hinv.len]; exact hcn)]
    · rcases hinv.slots i x hi hx with h | h
      · left
        rw [List.getElem?_set_ne (Ne.symm hic)]
        exact h
      · right
        exact ⟨hic, h⟩
  by_cases hidx : st.idx < items.length
  · simp only [workerLoop, hidx, if_true]
    refine ⟨⟨?_, ?_, ?_, ?_, ?_, ?_⟩, ?_⟩
    · simp [hinv.len]
    · exact hidx
    · show st.invoked ++ [st.idx] = List.range (st.idx + 1)
      rw [hinv.calls, List.range_succ]
    · intro i x hi hx
      show (st.results.set c (some (mapper items[c] c)))[i]? = some (some (mapper x i)) ∨
        some i ∈ st.workers.set w (some st.idx)
      by_cases hlast : i = st.idx
      · right
        rw [hlast]
        exact mem_set_self_of_lt _ _ _ hwlt
      · rcases hslot i x (by simp only at hi; omega) hx with h | ⟨hic, h⟩
        · exact Or.inl h
        · exact Or.inr (mem_set_of_mem_ne _ _ _ _ _ hc h hic)
    · intro c' hc'
      show c' < st.idx + 1
      rcases List.mem_or_eq_of_mem_set hc' with h | h
      · exact Nat.lt_succ_of_lt (hinv.claimed c' h)
      · cases h
        exact Nat.lt_succ_self _
    · intro _
      have hb := hinv.busy hidx
      refine ⟨?_, ?_⟩
      · intro hnil
        have hlen := congrArg List.length hnil
        rw [List.length_set, List.length_nil] at hlen
        rw [hlen] at hwlt
        exact absurd hwlt (Nat.not_lt_zero _)
      · intro s hs
        rcases List.mem_or_eq_of_mem_set hs with h | h
        · exact hb.2 s h
        · rw [h]; simp
    · show (items.length - (st.idx + 1)) + (st.workers.set w (some st.idx)).countP Option.isSome + 1
        = (items.length - st.idx) + st.workers.countP Option.isSome
      rw [countP_set_some _ _ _ _ hc]
      omega
  · simp only [workerLoop, hidx, if_false]
    have hfull : st.idx = items.length := le_antisymm hinv.idx_le (not_lt.1 hidx)
    refine ⟨⟨?_, ?_, ?_, ?_, ?_, ?_⟩, ?_⟩
    · simp [hinv.len]
    · exact hinv.idx_le
    · exact hinv.calls
    · intro i x hi hx
      rcases hslot i x hi hx with h | ⟨hic, h⟩
      · exact Or.inl h
      · exact Or.inr (mem_set_of_mem_ne _ _ _ _ _ hc h hic)
    · intro c' hc'
      rcases List.mem_or_eq_of_mem_set hc' with h | h
      · exact hinv.claimed c' h
      · cases h
    · intro h
      exact absurd h hidx
    · show (items.length - st.idx) + (st.workers.set w none).countP Option.isSome + 1
        = (items.length - st.idx) + st.workers.countP Option.isSome
      have := countP_set_none _ _ _ hc
      omega

theorem set_append_length (ws : List (Option Nat)) (x y : Option Nat) :
    (ws ++ [y]).set ws.length x = ws ++ [x] := by
  induction ws with
  | nil => rfl
  | cons a rest ih => simp [ih]

theorem mapLimitStart_fold {α β : Type} (items : List α) (k : Nat) (hk : k ≤ items.length) :
    (List.range k).foldl
      (fun (st : MapLimitState β) w => workerLoop items w { st with workers := st.workers ++ [none] })
      { idx := 0, results := List.replicate items.length none, workers := [], invoked := [] }
    = { idx := k, results := List.replicate items.length none,
        workers := (List.range k).map some, invoked := List.range k } := by
  induction k with
  | zero => rfl
  | succ k ih =>
    rw [List.range_succ, List.foldl_append, ih (by omega)]
    have hk' : k < items.length := by omega
    have hlen : ((List.range k).map some).length = k := by simp
    simp only [List.foldl_cons, List.foldl_nil, workerLoop, hk', if_true, List.map_append,
      List.map_cons, List.map_nil]
    congr 1
    have := set_append_length ((List.range k).map some) (some k) none
    rw [hlen] at this
    exact this

theorem mapLimitStart_inv {α β : Type} (items : List α) (limit : Nat) (mapper : α → Nat → β)
    (hlimit : 1 ≤ limit) :
    MapLimitInv items mapper (mapLimitStart items limit : MapLimitState β) ∧
      mapLimitMeasure items (mapLimitStart items limit : MapLimitState β) = items.length := by
  have hstart : (mapLimitStart items limit : MapLimitState β) = _ :=
    mapLimitStart_fold items (min limit items.length) (Nat.min_le_right _ _)
  rw [hstart]
  refine ⟨⟨?_, ?_, ?_, ?_, ?_, ?_⟩, ?_⟩
  · simp
  · exact Nat.min_le_right _ _
  · rfl
  · intro i x hi _
    right
    exact List.mem_map.2 ⟨i, List.mem_range.2 hi, rfl⟩
  · intro c hc
    obtain ⟨j, hj, hjc⟩ := List.mem_map.1 hc
    cases hjc
    exact List.mem_range.1 hj
  · intro hlt
    have hlt' : min limit items.length < items.length := hlt
    have hpos : 0 < min limit items.length := by
      rw [Nat.lt_min]
      exact ⟨hlimit, by omega⟩
    refine ⟨?_, ?_⟩
    · intro hnil
      have hlen := congrArg List.length hnil
      simp only [List.length_map, List.length_range, List.length_nil] at hlen
      omega
    · intro s hs
      obtain ⟨j, _, hjs⟩ := List.mem_map.1 hs
      rw [← hjs]
      simp
  · show (items.length - min limit items.length) +
      ((List.range (min limit items.length)).map some).countP Option.isSome = items.length
    have hcount : ∀ l : List Nat, (l.map some).countP Option.isSome = l.length := by
      intro l
      induction l with
      | nil => rfl
      | cons a rest ih => simp [List.countP_cons, ih]
    rw [hcount, List.length_range]
    have := Nat.min_le_right limit items.length
    omega

theorem pending_of_measure_pos {α β : Type} (items : List α) (mapper : α → Nat → β)
    (st : MapLimitState β) (hinv : MapLimitInv items mapper st)
    (hpos : 0 < mapLimitMeasure items st) : pendingWorkers st.workers ≠ [] := by
  have hex : ∃ c, some c ∈ st.workers := by
    by_cases hidx : st.idx < items.length
    · obtain ⟨hne, hall⟩ := hinv.busy hidx
      cases hws : st.workers with
      | nil => exact absurd hws hne
      | cons a rest =>
        have ha : a ∈ st.workers := by rw [hws]; exact List.mem_cons_self _ _
        cases a with
        | none => exact absurd rfl (hall none ha)
        | some c => exact ⟨c, List.mem_cons_self _ _⟩
    · have hcnt : 0 < st.workers.countP Option.isSome := by
        unfold mapLimitMeasure at hpos
        omega
      obtain ⟨a, ha, hsome⟩ := List.countP_pos_iff.1 hcnt
      obtain ⟨c, hc⟩ := Option.isSome_iff_exists.1 hsome
      exact ⟨c, hc ▸ ha⟩
  obtain ⟨c, hc⟩ := hex
  obtain ⟨j, hj⟩ := List.mem_iff_getElem?.1 hc
  have : j ∈ pendingWorkers st.workers := (mem_pendingWorkers _ _).2 ⟨c, hj⟩
  exact List.ne_nil_of_mem this

theorem mapLimitRun_inv {α β : Type} (items : List α) (mapper : α → Nat → β) (sched : Nat → Nat)
    (fuel : Nat) : ∀ (step : Nat) (st : MapLimitState β), MapLimitInv items mapper st →
      mapLimitMeasure items st = fuel →
      MapLimitInv items mapper (mapLimitRun items mapper sched fuel step st) ∧
        mapLimitMeasure items (mapLimitRun items mapper sched fuel step st) = 0 := by
  induction fuel with
  | zero =>
    intro step st hinv hm
    exact ⟨hinv, hm⟩
  | succ fuel ih =>
    intro step st hinv hm
    have hne := pending_of_measure_pos items mapper st hinv (by omega)
    cases hp : pendingWorkers st.workers with
    | nil => exact absurd hp hne
    | cons p ps =>
      simp only [mapLimitRun, hp]
      have hmem : (p :: ps).getD (sched step % (p :: ps).length) p ∈ pendingWorkers st.workers := by
        rw [hp]
        have hlt : sched step % (p :: ps).length < (p :: ps).length :=
          Nat.mod_lt _ (by simp)
        rw [List.getD_eq_getElem?_getD, List.getElem?_eq_getElem hlt]
        exact List.getElem_mem hlt
      obtain ⟨hinv', hm'⟩ := mapperSettles_inv items mapper st _ hinv hmem
      exact ih (step + 1) _ hinv' (by omega)

/-- C3: for every list `items`, every `limit ≥ 1`, every mapper that never fails and every
order in which the pending mapper calls complete (`sched`), `mapLimit` returns; the result has
the length of `items` and its `i`-th element is `mapper(items[i], i)`; and the mapper was
invoked on the indices `0, 1, .., items.length - 1`, each exactly once. -/
theorem mapLimit_ordered {α β : Type} (items : List α) (limit : Nat) (mapper : α → Nat → β)
    (sched : Nat → Nat) (hlimit : 1 ≤ limit) :
    ∃ results, mapLimit items limit mapper sched = some (results, List.range items.length) ∧
      results.length = items.length ∧
      ∀ i x, items[i]? = some x → results[i]? = some (some (mapper x i)) := by
  obtain ⟨hinv0, hm0⟩ := mapLimitStart_inv (β := β) items limit mapper hlimit
  obtain ⟨hinv, hm⟩ := mapLimitRun_inv items mapper sched items.length 0 _ hinv0 hm0
  have hidx : (mapLimitRun items mapper sched items.length 0 (mapLimitStart items limit)).idx
      = items.length := by
    have := hinv.idx_le
    unfold mapLimitMeasure at hm
    omega
  have hnone : ∀ c, some c ∉
      (mapLimitRun items mapper sched items.length 0 (mapLimitStart items limit)).workers := by
    intro c hc
    have hcnt : 0 < List.countP Option.isSome
        (mapLimitRun items mapper sched items.length 0 (mapLimitStart items limit)).workers :=
      List.countP_pos_iff.2 ⟨some c, hc, rfl⟩
    unfold mapLimitMeasure at hm
    omega
  have hpend : pendingWorkers
      (mapLimitRun items mapper sched items.length 0 (mapLimitStart items limit)).workers = [] := by
    by_contra hne
    obtain ⟨w, hw⟩ := List.exists_mem_of_ne_nil _ hne
    obtain ⟨c, hc⟩ := (mem_pendingWorkers _ _).1 hw
    exact hnone c (List.mem_iff_getElem?.2 ⟨w, hc⟩)
  refine ⟨(mapLimitRun items mapper sched items.length 0 (mapLimitStart items limit)).results,
    ?_, hinv.len, ?_⟩
  · simp only [mapLimit, hpend, if_true]
    rw [hinv.calls, hidx]
  · intro i x hx
    have hi : i < items.length := by
      by_contra hge
      rw [List.getElem?_eq_none (by omega)] at hx
      cases hx
    rcases hinv.slots i x (by rw [hidx]; exact hi) hx with h | h
    · exact h
    · exact absurd h (hnone i)

/-- Witness for C3: five items, two workers, the second pending call always completing first
(so the last item completes before the first). -/
theorem mapLimit_ordered_witness :
    ∃ results : List (Option Nat),
      mapLimit ([10, 20, 30, 40, 50] : List Nat) 2 (fun (x i : Nat) => x + i) (fun _ => 1)
        = some (results, List.range 5) ∧
      results.length = 5 ∧
      ∀ (i x : Nat), ([10, 20, 30, 40, 50] : List Nat)[i]? = some x →
        results[i]? = some (some (x + i)) :=
  mapLimit_ordered ([10, 20, 30, 40, 50] : List Nat) 2 (fun (x i : Nat) => x + i) (fun _ => 1)
    (by decide)


/-! ## Genre merge -/

namespace JsMap

variable {K V : Type} [DecidableEq K]

theorem keys_set (m : JsMap K V) (k : K) (v : V) :
    (set m k v).map Prod.fst = if k ∈ m.map Prod.fst then m.map Prod.fst else m.map Prod.fst ++ [k] := by
  induction m with
  | nil => simp [set]
  | cons p rest ih =>
    obtain ⟨k0, v0⟩ := p
    by_cases h0 : k0 = k
    · subst h0
      simp [set]
    · have h0' : ¬ k = k0 := fun h => h0 h.symm
      simp only [set, h0, if_false, List.map_cons, ih, List.mem_cons, h0', false_or]
      split <;> simp

theorem nodup_keys_set (m : JsMap K V) (k : K) (v : V) (h : (m.map Prod.fst).Nodup) :
    ((set m k v).map Prod.fst).Nodup := by
  rw [keys_set]
  split
  · exact h
  · rename_i hk
    exact List.Nodup.append h (List.nodup_singleton k) (by
      intro a ha hb
      rw [List.mem_singleton] at hb
      exact hk (hb ▸ ha))

theorem get_of_mem (m : JsMap K V) (k : K) (v : V) (hnd : (m.map Prod.fst).Nodup)
    (hmem : (k, v) ∈ m) : get m k = some v := by
  induction m with
  | nil => cases hmem
  | cons p rest ih =>
    obtain ⟨k0, v0⟩ := p
    rw [List.map_cons, List.nodup_cons] at hnd
    rcases List.mem_cons.1 hmem with h | h
    · cases h
      simp [get]
    · have hk : k0 ≠ k := by
        intro hEq
        subst hEq
        exact hnd.1 (List.mem_map.2 ⟨(k0, v), h, rfl⟩)
      simp only [get, hk, if_false]
      exact ih hnd.2 h

theorem mem_of_get (m : JsMap K V) (k : K) (v : V) (h : get m k = some v) : (k, v) ∈ m := by
  induction m with
  | nil => simp [get] at h
  | cons p rest ih =>
    obtain ⟨k0, v0⟩ := p
    by_cases h0 : k0 = k
    · subst h0
      simp [get] at h
      subst h
      exact List.mem_cons_self _ _
    · simp only [get, h0, if_false] at h
      exact List.mem_cons_of_mem _ (ih h)

/-- After setting `entries` one after the other, a key holds the value of its last entry. -/
theorem get_foldl_set (entries : List (K × V)) (m : JsMap K V) (k : K) :
    get (entries.foldl (fun m e => set m e.1 e.2) m) k =
      match entries.reverse.find? (fun e => decide (e.1 = k)) with
      | some e => some e.2
      | none => get m k := by
  induction entries generalizing m with
  | nil => simp
  | cons e rest ih =>
    rw [List.foldl_cons, ih, List.reverse_cons, List.find?_append]
    cases hfind : rest.reverse.find? (fun e => decide (e.1 = k)) with
    | some e' => simp
    | none =>
      by_cases hk : e.1 = k
      · subst hk
        simp [get_set_self]
      · simp [hk, get_set_ne _ _ _ _ hk]

theorem nodup_keys_foldl_set (entries : List (K × V)) (m : JsMap K V)
    (h : (m.map Prod.fst).Nodup) :
    ((entries.foldl (fun m e => set m e.1 e.2) m).map Prod.fst).Nodup := by
  induction entries generalizing m with
  | nil => exact h
  | cons e rest ih =>
    rw [List.foldl_cons]
    exact ih _ (nodup_keys_set m e.1 e.2 h)

theorem mem_keys_foldl_set (entries : List (K × V)) (m : JsMap K V) (k : K) :
    k ∈ (entries.foldl (fun m e => set m e.1 e.2) m).map Prod.fst ↔
      k ∈ m.map Prod.fst ∨ k ∈ entries.map Prod.fst := by
  induction entries generalizing m with
  | nil => simp
  | cons e rest ih =>
    rw [List.foldl_cons, ih, keys_set]
    by_cases he : e.1 ∈ m.map Prod.fst
    · simp only [he, if_true, List.map_cons, List.mem_cons]
      constructor
      · rintro (h | h)
        · exact Or.inl h
        · exact Or.inr (Or.inr h)
      · rintro (h | h | h)
        · exact Or.inl h
        · exact Or.inl (h ▸ he)
        · exact Or.inr h
    · simp only [he, if_false, List.map_cons, List.mem_cons, List.mem_append, List.mem_singleton]
      tauto

end JsMap

theorem getGenres_entry_spec (merged : List Genre) (k : Int) (g : Genre)
    (h : (k, g) ∈ JsMap.ofEntries (merged.map (fun g => (g.id, g)))) :
    g.id = k ∧ merged.reverse.find? (fun x => decide (x.id = k)) = some g := by
  have hnd : ((JsMap.ofEntries (merged.map (fun g => (g.id, g)))).map Prod.fst).Nodup :=
    JsMap.nodup_keys_foldl_set _ [] List.nodup_nil
  have hget := JsMap.get_of_mem _ k g hnd h
  unfold JsMap.ofEntries at hget
  rw [JsMap.get_foldl_set, ← List.map_reverse, List.find?_map] at hget
  cases hfind : merged.reverse.find? ((fun e => decide (e.1 = k)) ∘ fun g : Genre => (g.id, g)) with
  | none =>
    rw [hfind] at hget
    simp [JsMap.get] at hget
  | some g' =>
    rw [hfind] at hget
    simp at hget
    subst hget
    have hp := List.find?_some hfind
    simp at hp
    exact ⟨hp, hfind⟩

/-- C4 (as the code behaves): the `genres` list returned by `getGenres` on a cache miss contains
each genre id occurring in `M ++ T` exactly once (and no other id), and the record kept for an
id is the last record carrying that id in `M ++ T`. -/
theorem getGenres_dedup_last_wins (movieData tvData : Option (List Genre)) :
    (∀ i : Int, ((getGenresDeduped movieData tvData).map Genre.id).count i =
      if i ∈ (movieData.getD [] ++ tvData.getD []).map Genre.id then 1 else 0) ∧
    (∀ g ∈ getGenresDeduped movieData tvData,
      (movieData.getD [] ++ tvData.getD []).reverse.find? (fun x => decide (x.id = g.id))
        = some g) := by
  have hnd : ((JsMap.ofEntries ((movieData.getD [] ++ tvData.getD []).map
      (fun g => (g.id, g)))).map Prod.fst).Nodup :=
    JsMap.nodup_keys_foldl_set _ [] List.nodup_nil
  have hids : (getGenresDeduped movieData tvData).map Genre.id =
      (JsMap.ofEntries ((movieData.getD [] ++ tvData.getD []).map (fun g => (g.id, g)))).map
        Prod.fst := by
    simp only [getGenresDeduped, JsMap.values, List.map_map]
    apply List.map_congr_left
    rintro ⟨k, g⟩ hmem
    exact (getGenres_entry_spec _ k g hmem).1
  constructor
  · intro i
    rw [hids]
    have hmem : i ∈ (JsMap.ofEntries ((movieData.getD [] ++ tvData.getD []).map
        (fun g => (g.id, g)))).map Prod.fst ↔
        i ∈ (movieData.getD [] ++ tvData.getD []).map Genre.id := by
      unfold JsMap.ofEntries
      rw [JsMap.mem_keys_foldl_set]
      simp [List.map_map, Function.comp_def]
    by_cases hi : i ∈ (movieData.getD [] ++ tvData.getD []).map Genre.id
    · rw [if_pos hi]
      exact List.count_eq_one_of_mem hnd (hmem.2 hi)
    · rw [if_neg hi]
      exact List.count_eq_zero_of_not_mem (fun h => hi (hmem.1 h))
  · intro g hg
    simp only [getGenresDeduped, JsMap.values] at hg
    obtain ⟨⟨k, g'⟩, hmem, hEq⟩ := List.mem_map.1 hg
    simp only at hEq
    subst hEq
    obtain ⟨hk, hfind⟩ := getGenres_entry_spec _ k g' hmem
    rw [hk]
    exact hfind

/-- C4 as stated fails: when the movie list and the TV list carry the same id with different
records, the record kept is the TV one, not the first occurrence. -/
theorem getGenres_first_occurrence_fails :
    getGenresDeduped (some [⟨10759, "Action"⟩]) (some [⟨10759, "Action & Adventure"⟩])
        = [⟨10759, "Action & Adventure"⟩] ∧
      ([⟨10759, "Action"⟩] ++ [⟨10759, "Action & Adventure"⟩] : List Genre).find?
        (fun x => decide (x.id = 10759)) = some ⟨10759, "Action"⟩ ∧
      ¬ (∀ (M T : List Genre), ∀ g ∈ getGenresDeduped (some M) (some T),
          (M ++ T).find? (fun x => decide (x.id = g.id)) = some g) := by
  refine ⟨by decide, by decide, ?_⟩
  intro h
  have := h [⟨10759, "Action"⟩] [⟨10759, "Action & Adventure"⟩] ⟨10759, "Action & Adventure"⟩
    (by decide)
  revert this
  decide

/-- Witness for C4: the merged list of one movie genre and two TV genres, one id shared. -/
theorem getGenres_dedup_last_wins_witness :
    ([⟨28, "Action"⟩, ⟨35, "Comedy"⟩] ++ [⟨35, "Comedies"⟩] : List Genre).reverse.find?
      (fun x => decide (x.id = 35)) = some ⟨35, "Comedies"⟩ :=
  (getGenres_dedup_last_wins (some [⟨28, "Action"⟩, ⟨35, "Comedy"⟩]) (some [⟨35, "Comedies"⟩])).2
    ⟨35, "Comedies"⟩ (by decide)
/-! ## Catalog normalizer -/

/-- C5 (as the code behaves): for both media types the title of `toItem(raw, type, genreMap)`
is the first non-empty of `raw.name`, `raw.title`, `raw.original_name`, `raw.original_title`,
else the empty string. Hence a TV record without `title` and `original_title` gets `name`, else
`original_name`, else the empty string; a movie record without `name` and `original_name` gets
`title`, else `original_title`, else the empty string; and a TV record with no `name`, no
`title` and a non-empty `original_name` yields `title = original_name`. -/
theorem toItem_title (raw : RawRecord) (type : String) (genresById : JsMap Int String) :
    (toItem raw type genresById).title =
        firstNonEmpty [raw.name, raw.title, raw.original_name, raw.original_title] ∧
    (truthy raw.title = false → truthy raw.original_title = false →
      (toItem raw "tv" genresById).title = firstNonEmpty [raw.name, raw.original_name]) ∧
    (truthy raw.name = false → truthy raw.original_name = false →
      (toItem raw "movie" genresById).title = firstNonEmpty [raw.title, raw.original_title]) ∧
    (∀ s, truthy raw.name = false → truthy raw.title = false → raw.original_name = some s →
      s ≠ "" → (toItem raw "tv" genresById).title = s) := by
  have key : ∀ t, (toItem raw t genresById).title =
      firstNonEmpty [raw.name, raw.title, raw.original_name, raw.original_title] := by
    intro t
    simp only [toItem, firstNonEmpty]
    rcases hn : raw.name with _ | n <;> rcases ht : raw.title with _ | t' <;>
      rcases ho : raw.original_name with _ | o <;> rcases hot : raw.original_title with _ | ot <;>
      simp [jsOr, jsOrD, truthy, interpolate] <;> split_ifs <;> simp_all
  refine ⟨key type, ?_, ?_, ?_⟩
  · intro h1 h2
    rw [key]
    simp [firstNonEmpty, h1, h2]
  · intro h1 h2
    rw [key]
    simp [firstNonEmpty, h1, h2]
  · intro s h1 h2 h3 h4
    rw [key]
    simp only [firstNonEmpty, h1, h2, h3]
    simp [truthy, h4, interpolate]

/-- Witness for C5: a TV record with only a non-empty `original_name`. -/
theorem toItem_title_witness :
    (toItem ⟨some 1399, none, none, some "Gra o tron", none, none, none, none, none, none, none⟩
      "tv" []).title = "Gra o tron" :=
  (toItem_title ⟨some 1399, none, none, some "Gra o tron", none, none, none, none, none, none, none⟩
    "tv" []).2.2.2 "Gra o tron" rfl rfl rfl (by decide)

/-- C5 as stated fails: a TV record with no `name`, a non-empty `title` and a non-empty
`original_name` gets `title`, not `original_name`; a movie record with a non-empty `name` and a
non-empty `title` gets `name`, not `title`. -/
theorem toItem_title_ignores_type :
    (toItem ⟨some 1, none, some "T", some "O", none, none, none, none, none, none, none⟩
        "tv" []).title = "T" ∧
    (toItem ⟨some 2, some "N", some "T", none, none, none, none, none, none, none, none⟩
        "movie" []).title = "N" := by
  constructor <;> decide

/-! ## Discover cache key -/

theorem toDigitsCore_eq_append (fuel : Nat) : ∀ (n : Nat) (ds : List Char), n < fuel →
    Nat.toDigitsCore 10 fuel n ds = Nat.toDigitsCore 10 (n + 1) n [] ++ ds := by
  induction fuel using Nat.strong_induction_on with
  | _ fuel ih =>
    intro n ds hn
    cases fuel with
    | zero => omega
    | succ f =>
      by_cases hq : n / 10 = 0
      · simp [Nat.toDigitsCore, hq]
      · have hlt : n / 10 < n := Nat.div_lt_self (by omega) (by omega)
        have h1 : Nat.toDigitsCore 10 (f + 1) n ds =
            Nat.toDigitsCore 10 f (n / 10) (Nat.digitChar (n % 10) :: ds) := by
          simp [Nat.toDigitsCore, hq]
        have h2 : Nat.toDigitsCore 10 (n + 1) n [] =
            Nat.toDigitsCore 10 n (n / 10) [Nat.digitChar (n % 10)] := by
          simp [Nat.toDigitsCore, hq]
        rw [h1, h2, ih f (by omega) (n / 10) _ (by omega), ih n (by omega) (n / 10) _ hlt]
        simp

theorem toDigits_step (n : Nat) :
    Nat.toDigits 10 n =
      if n / 10 = 0 then [Nat.digitChar (n % 10)]
      else Nat.toDigits 10 (n / 10) ++ [Nat.digitChar (n % 10)] := by
  unfold Nat.toDigits
  by_cases hq : n / 10 = 0
  · simp [Nat.toDigitsCore, hq]
  · have hlt : n / 10 < n := Nat.div_lt_self (by omega) (by omega)
    rw [if_neg hq]
    have h2 : Nat.toDigitsCore 10 (n + 1) n [] =
        Nat.toDigitsCore 10 n (n / 10) [Nat.digitChar (n % 10)] := by
      simp [Nat.toDigitsCore, hq]
    rw [h2, toDigitsCore_eq_append n (n / 10) _ hlt]

theorem toDigits_ne_nil (n : Nat) : Nat.toDigits 10 n ≠ [] := by
  rw [toDigits_step]
  split <;> simp

theorem digitChar_inj : ∀ a < 10, ∀ b < 10, Nat.digitChar a = Nat.digitChar b → a = b := by
  decide

theorem toDigits_inj : ∀ (n m : Nat), Nat.toDigits 10 n = Nat.toDigits 10 m → n = m := by
  intro n
  induction n using Nat.strong_induction_on with
  | _ n ih =>
    intro m h
    rw [toDigits_step n, toDigits_step m] at h
    by_cases hn : n / 10 = 0
    · by_cases hm : m / 10 = 0
      · rw [if_pos hn, if_pos hm] at h
        have hd := digitChar_inj _ (Nat.mod_lt n (by omega)) _ (Nat.mod_lt m (by omega))
          (List.cons.inj h).1
        omega
      · rw [if_pos hn, if_neg hm] at h
        have hlen := congrArg List.length h
        have := List.length_pos.2 (toDigits_ne_nil (m / 10))
        simp only [List.length_append, List.length_cons, List.length_nil] at hlen
        omega
    · by_cases hm : m / 10 = 0
      · rw [if_neg hn, if_pos hm] at h
        have hlen := congrArg List.length h
        have := List.length_pos.2 (toDigits_ne_nil (n / 10))
        simp only [List.length_append, List.length_cons, List.length_nil] at hlen
        omega
      · rw [if_neg hn, if_neg hm] at h
        have hlt : n / 10 < n := Nat.div_lt_self (by omega) (by omega)
        obtain ⟨h1, h2⟩ := List.append_inj' h rfl
        have hq := ih (n / 10) hlt (m / 10) h1
        have hd := digitChar_inj _ (Nat.mod_lt n (by omega)) _ (Nat.mod_lt m (by omega))
          (List.cons.inj h2).1
        omega

theorem repr_inj (n m : Nat) (h : Nat.repr n = Nat.repr m) : n = m := by
  unfold Nat.repr List.asString at h
  exact toDigits_inj n m (congrArg String.data h)

theorem split_at_colon : ∀ (a a' r r' : List Char), ':' ∉ a → ':' ∉ a' →
    a ++ ':' :: r = a' ++ ':' :: r' → a = a' ∧ r = r' := by
  intro a
  induction a with
  | nil =>
    intro a' r r' _ ha' h
    cases a' with
    | nil => simpa using h
    | cons c rest =>
      simp at h
      exact absurd (h.1 ▸ List.mem_cons_self _ _) ha'
  | cons c rest ih =>
    intro a' r r' ha ha' h
    cases a' with
    | nil =>
      simp at h
      exact absurd (h.1 ▸ List.mem_cons_self _ _) ha
    | cons c' rest' =>
      simp only [List.cons_append, List.cons.injEq] at h
      obtain ⟨hc, hrest⟩ := h
      obtain ⟨h1, h2⟩ := ih rest' r r' (fun hm => ha (List.mem_cons_of_mem _ hm))
        (fun hm => ha' (List.mem_cons_of_mem _ hm)) hrest
      exact ⟨by rw [hc, h1], h2⟩

theorem jsOrD_some_empty (s : String) : jsOrD (some s) "" = s := by
  unfold jsOrD
  by_cases h : s = ""
  · simp [h]
  · simp [h]

theorem discoverCacheKey_data (type genre sortBy year : String) (page : Nat) :
    (discoverCacheKey type genre sortBy year page).data =
      "discover:".data ++ (type.data ++ ':' :: (genre.data ++ ':' :: (sortBy.data ++ ':' ::
        (year.data ++ ':' :: (Nat.repr (pageOr1 page)).data)))) := by
  simp [discoverCacheKey, jsOrD_some_empty, String.data_append]

/-- C6 (as the code behaves): the discover cache key separates its parameters with `:` and
reads a page of 0 as 1, so it is injective on argument tuples whose `type`, `genre`, `sortBy`
and `year` contain no `:` and whose page is at least 1. The keys for `(movie, genre=28)`,
`(tv, genre=28)` and `(movie, genre=35)` with the other parameters equal are pairwise distinct,
whatever the other parameters are. -/
theorem discoverCacheKey_injective :
    (∀ (t1 g1 s1 y1 t2 g2 s2 y2 : String) (p1 p2 : Nat),
      ':' ∉ t1.data → ':' ∉ g1.data → ':' ∉ s1.data → ':' ∉ y1.data →
      ':' ∉ t2.data → ':' ∉ g2.data → ':' ∉ s2.data → ':' ∉ y2.data →
      1 ≤ p1 → 1 ≤ p2 →
      (t1, g1, s1, y1, p1) ≠ (t2, g2, s2, y2, p2) →
      discoverCacheKey t1 g1 s1 y1 p1 ≠ discoverCacheKey t2 g2 s2 y2 p2) ∧
    (∀ (sortBy year : String) (page : Nat),
      discoverCacheKey "movie" "28" sortBy year page ≠ discoverCacheKey "tv" "28" sortBy year page ∧
      discoverCacheKey "movie" "28" sortBy year page ≠ discoverCacheKey "movie" "35" sortBy year page ∧
      discoverCacheKey "tv" "28" sortBy year page ≠ discoverCacheKey "movie" "35" sortBy year page) := by
  constructor
  · intro t1 g1 s1 y1 t2 g2 s2 y2 p1 p2 ht1 hg1 hs1 hy1 ht2 hg2 hs2 hy2 hp1 hp2 hne h
    apply hne
    have hd := congrArg String.data h
    rw [discoverCacheKey_data, discoverCacheKey_data] at hd
    have hd1 := List.append_cancel_left hd
    obtain ⟨ht, hd2⟩ := split_at_colon _ _ _ _ ht1 ht2 hd1
    obtain ⟨hg, hd3⟩ := split_at_colon _ _ _ _ hg1 hg2 hd2
    obtain ⟨hs, hd4⟩ := split_at_colon _ _ _ _ hs1 hs2 hd3
    obtain ⟨hy, hd5⟩ := split_at_colon _ _ _ _ hy1 hy2 hd4
    have hp : pageOr1 p1 = pageOr1 p2 := repr_inj _ _ (String.ext hd5)
    have hp' : p1 = p2 := by
      unfold pageOr1 at hp
      rw [if_neg (by omega), if_neg (by omega)] at hp
      exact hp
    rw [String.ext ht, String.ext hg, String.ext hs, String.ext hy, hp']
  · intro sortBy year page
    refine ⟨?_, ?_, ?_⟩ <;>
    · intro h
      have hd := congrArg String.data h
      rw [discoverCacheKey_data, discoverCacheKey_data] at hd
      have hd1 := List.append_cancel_left hd
      simp at hd1

/-- Witness for C6: two discover queries that differ in the page only. -/
theorem discoverCacheKey_injective_witness :
    discoverCacheKey "movie" "28" "popularity.desc" "2020" 1
        ≠ discoverCacheKey "movie" "28" "popularity.desc" "2020" 2 :=
  discoverCacheKey_injective.1 "movie" "28" "popularity.desc" "2020"
    "movie" "28" "popularity.desc" "2020" 1 2
    (by decide) (by decide) (by decide) (by decide) (by decide) (by decide) (by decide)
    (by decide) (by decide) (by decide) (by decide)

/-- C6 as stated fails: a `:` inside a parameter moves the boundary between two parameters, and
a page of 0 shares its key with page 1. -/
theorem discoverCacheKey_collisions :
    discoverCacheKey "movie" "28:x" "y" "" 1 = discoverCacheKey "movie" "28" "x:y" "" 1 ∧
    ("movie", "28:x", "y", "", 1) ≠ ("movie", "28", "x:y", "", 1) ∧
    discoverCacheKey "movie" "28" "popularity.desc" "" 0
      = discoverCacheKey "movie" "28" "popularity.desc" "" 1 := by
  refine ⟨by decide, by decide, by decide⟩

/-! ## Request validation -/

/-- The key read by `getApiKey`: `v` is the first non-empty of `TMDB_API_KEY` and `API_KEY`. -/
theorem getApiKey_first_nonEmpty (env : Env) (v : String)
    (hv : (env.TMDB_API_KEY = some v ∧ v ≠ "") ∨
      ((env.TMDB_API_KEY = none ∨ env.TMDB_API_KEY = some "") ∧ env.API_KEY = some v ∧ v ≠ "")) :
    getApiKey env =
      if jsTrim v = "" then .error "TMDB_API_KEY is not configured" else .ok (jsTrim v) := by
  obtain ⟨k1, k2⟩ := env
  rcases hv with ⟨h1, hne⟩ | ⟨h1 | h1, h2, hne⟩
  · simp only at h1
    subst h1
    simp [getApiKey, jsOr, jsOrD, truthy, hne]
  · simp only at h1 h2
    subst h1
    subst h2
    simp [getApiKey, jsOr, jsOrD, truthy, hne]
  · simp only at h1 h2
    subst h1
    subst h2
    simp [getApiKey, jsOr, jsOrD, truthy, hne]

/-- C7 (as the code behaves): every handler reads the API key first. `getApiKey` returns a key
exactly when the first non-empty of `TMDB_API_KEY` and `API_KEY` has a non-blank character;
it throws when both are missing or empty and when the first non-empty one is blank. Where it
returns a key, a discover request whose type is a non-empty string other than `movie` and `tv`,
a sections request whose `genres` has no non-blank comma-separated element, and a trailer
request with a missing or empty id each fail with status 400 without any cache access or
upstream request, whatever the rest of the handler would do; a discover request whose type is
missing or empty is handled as `type=movie` and goes on to the rest of the handler. Where
`getApiKey` throws, each of the three handlers fails with its error and status 500, again
without any cache access or upstream request. -/
theorem validation_before_io (env : Env) (query : Query) :
    (∀ apiKey, getApiKey env = .ok apiKey →
      (∀ t rest, query.type = some t → t ≠ "" → t ≠ "movie" → t ≠ "tv" →
        discover env query rest = ⟨400, some "Invalid type", []⟩ ∧
        httpStatus (discover env query rest) = 400) ∧
      (∀ rest, query.type = none ∨ query.type = some "" →
        discover env query rest = rest apiKey "movie" query) ∧
      (∀ rest, (∀ x ∈ splitComma (jsOrD query.genres ""), jsTrim x = "") →
        (∃ msg, sections env query rest = ⟨400, some msg, []⟩) ∧
        httpStatus (sections env query rest) = 400) ∧
      (∀ rest, jsOrD query.id "" = "" →
        trailer env query rest = ⟨400, some "Missing id", []⟩ ∧
        httpStatus (trailer env query rest) = 400)) ∧
    (∀ msg, getApiKey env = .error msg →
      msg = "TMDB_API_KEY is not configured" ∧
      (∀ rest, discover env query rest = ⟨200, some msg, []⟩ ∧
        httpStatus (discover env query rest) = 500) ∧
      (∀ rest, sections env query rest = ⟨200, some msg, []⟩ ∧
        httpStatus (sections env query rest) = 500) ∧
      (∀ rest, trailer env query rest = ⟨200, some msg, []⟩ ∧
        httpStatus (trailer env query rest) = 500)) ∧
    (∀ v, (env.TMDB_API_KEY = some v ∧ v ≠ "") ∨
        ((env.TMDB_API_KEY = none ∨ env.TMDB_API_KEY = some "") ∧ env.API_KEY = some v ∧ v ≠ "") →
      (jsTrim v ≠ "" → getApiKey env = .ok (jsTrim v)) ∧
      (jsTrim v = "" → getApiKey env = .error "TMDB_API_KEY is not configured")) ∧
    (env.TMDB_API_KEY = none ∨ env.TMDB_API_KEY = some "" →
      env.API_KEY = none ∨ env.API_KEY = some "" →
      getApiKey env = .error "TMDB_API_KEY is not configured") := by
  refine ⟨?_, ?_, ?_, ?_⟩
  · intro apiKey hkey
    refine ⟨?_, ?_, ?_, ?_⟩
    · intro t rest ht hne hm htv
      have htype : jsOrD query.type "movie" = t := by
        rw [ht]; simp [jsOrD, hne]
      have hrun : discover env query rest = ⟨400, some "Invalid type", []⟩ := by
        simp [discover, hkey, htype, hm, htv]
      rw [hrun]
      exact ⟨rfl, by decide⟩
    · intro rest ht
      have htype : jsOrD query.type "movie" = "movie" := by
        rcases ht with h | h <;> rw [h] <;> simp [jsOrD]
      simp [discover, hkey, htype]
    · intro rest hblank
      have hids : sectionGenreIds (jsOrD query.genres "") = [] := by
        unfold sectionGenreIds
        rw [List.filter_eq_nil_iff]
        intro x hx
        obtain ⟨y, hy, hyx⟩ := List.mem_map.1 hx
        have := hblank y hy
        simp [← hyx, this]
      by_cases hty : jsOrD query.type "movie" ≠ "movie" ∧ jsOrD query.type "movie" ≠ "tv"
      · have hrun : sections env query rest = ⟨400, some "Invalid type", []⟩ := by
          simp only [sections, hkey]
          rw [if_pos hty]
        rw [hrun]
        exact ⟨⟨_, rfl⟩, by decide⟩
      · have hrun : sections env query rest = ⟨400, some "Missing genres", []⟩ := by
          simp only [sections, hkey]
          rw [if_neg hty]
          simp [hids]
        rw [hrun]
        exact ⟨⟨_, rfl⟩, by decide⟩
    · intro rest hid
      have hrun : trailer env query rest = ⟨400, some "Missing id", []⟩ := by
        simp [trailer, hkey, hid]
      rw [hrun]
      exact ⟨rfl, by decide⟩
  · intro msg hkey
    have hmsg : msg = "TMDB_API_KEY is not configured" := by
      unfold getApiKey at hkey
      simp only at hkey
      split at hkey
      · cases hkey; rfl
      · cases hkey
    refine ⟨hmsg, ?_, ?_, ?_⟩
    · intro rest
      have hrun : discover env query rest = ⟨200, some msg, []⟩ := by
        simp [discover, hkey]
      rw [hrun]
      exact ⟨rfl, by simp [httpStatus]⟩
    · intro rest
      have hrun : sections env query rest = ⟨200, some msg, []⟩ := by
        simp [sections, hkey]
      rw [hrun]
      exact ⟨rfl, by simp [httpStatus]⟩
    · intro rest
      have hrun : trailer env query rest = ⟨200, some msg, []⟩ := by
        simp [trailer, hkey]
      rw [hrun]
      exact ⟨rfl, by simp [httpStatus]⟩
  · intro v hv
    have h := getApiKey_first_nonEmpty env v hv
    constructor
    · intro hne
      rw [h, if_neg hne]
    · intro he
      rw [h, if_pos he]
  · intro h1 h2
    obtain ⟨k1, k2⟩ := env
    simp only at h1 h2
    rcases h1 with h1 | h1 <;> rcases h2 with h2 | h2 <;> subst h1 <;> subst h2 <;> rfl

/-- Witness for C7: with a key configured, `sections` with `genres=" , "` fails with 400 before
the rest of the handler runs. -/
theorem validation_before_io_witness :
    httpStatus (sections ⟨some "k3y", none⟩ ⟨some "tv", some " , ", none, none, none, none, none⟩
      (fun _ _ _ _ => ⟨200, none, [Effect.cacheRead "sections"]⟩)) = 400 :=
  (((validation_before_io ⟨some "k3y", none⟩
    ⟨some "tv", some " , ", none, none, none, none, none⟩).1 "k3y" rfl).2.2.1
    (fun _ _ _ _ => ⟨200, none, [Effect.cacheRead "sections"]⟩) (by decide)).2

/-- C7 as stated fails in three ways. Where no API key is configured, `discover` with
`type=book`, `sections` with empty `genres` and `trailer` without `id` end with status 500, not
400. The same happens where `TMDB_API_KEY` is blank although `API_KEY` holds a key, because the
blank value is the one that is trimmed. And with a key configured, a discover request whose type
is the empty string, which is neither `movie` nor `tv`, is not rejected: the rest of the handler
runs, here reading the cache and answering 200. -/
theorem validation_status_not_400 :
    getApiKey ⟨none, some "  "⟩ = .error "TMDB_API_KEY is not configured" ∧
    httpStatus (discover ⟨none, some "  "⟩ ⟨some "book", none, none, none, none, none, none⟩
      (fun _ _ _ => ⟨200, none, []⟩)) = 500 ∧
    httpStatus (sections ⟨none, some "  "⟩ ⟨some "movie", some "", none, none, none, none, none⟩
      (fun _ _ _ _ => ⟨200, none, []⟩)) = 500 ∧
    httpStatus (trailer ⟨none, some "  "⟩ ⟨some "movie", none, none, none, none, none, none⟩
      (fun _ _ _ => ⟨200, none, []⟩)) = 500 ∧
    getApiKey ⟨some "  ", some "real"⟩ = .error "TMDB_API_KEY is not configured" ∧
    httpStatus (discover ⟨some "  ", some "real"⟩
      ⟨some "book", none, none, none, none, none, none⟩ (fun _ _ _ => ⟨200, none, []⟩)) = 500 ∧
    discover ⟨some "k3y", none⟩ ⟨some "", none, none, none, none, none, none⟩
      (fun _ type _ => ⟨200, none, [Effect.cacheRead ("discover:" ++ type)]⟩)
      = ⟨200, none, [Effect.cacheRead "discover:movie"]⟩ ∧
    httpStatus (discover ⟨some "k3y", none⟩ ⟨some "", none, none, none, none, none, none⟩
      (fun _ type _ => ⟨200, none, [Effect.cacheRead ("discover:" ++ type)]⟩)) = 200 := by
  refine ⟨rfl, by decide, by decide, by decide, rfl, by decide, by decide, by decide⟩

/-! ## Trailer selection -/

/-- C8: with `Y` the records of `results`, in order, whose site is YouTube and whose key is
non-empty (site and type names compared case-insensitively, as the code does), the `youtubeKey`
is the key of the first trailer of `Y` if there is one, otherwise the key of the first teaser of
`Y` if there is one, otherwise the key of the first record of `Y`, and `null` when `Y` is empty;
whenever `Y` is not empty it is a non-empty key. -/
theorem youtubeKey_priority (results : List Video) :
    (∀ v, (results.filter isYoutube).find? (hasType "trailer") = some v →
      youtubeKey results = v.key) ∧
    ((results.filter isYoutube).find? (hasType "trailer") = none →
      ∀ v, (results.filter isYoutube).find? (hasType "teaser") = some v →
        youtubeKey results = v.key) ∧
    ((results.filter isYoutube).find? (hasType "trailer") = none →
      (results.filter isYoutube).find? (hasType "teaser") = none →
      ∀ v, (results.filter isYoutube).head? = some v → youtubeKey results = v.key) ∧
    (results.filter isYoutube = [] → youtubeKey results = none) ∧
    (results.filter isYoutube ≠ [] → ∃ k, youtubeKey results = some k ∧ k ≠ "") := by
  have hkey : ∀ v, v ∈ results.filter isYoutube → ∃ k, v.key = some k ∧ k ≠ "" := by
    intro v hv
    have := (List.mem_filter.1 hv).2
    simp only [isYoutube, Bool.and_eq_true] at this
    have hk := this.2
    cases hvk : v.key with
    | none => rw [hvk] at hk; simp [truthy] at hk
    | some k =>
      rw [hvk] at hk
      refine ⟨k, rfl, ?_⟩
      simpa [truthy] using hk
  refine ⟨?_, ?_, ?_, ?_, ?_⟩
  · intro v h
    simp [youtubeKey, h, orElseVideo]
  · intro h1 v h2
    simp [youtubeKey, h1, h2, orElseVideo]
  · intro h1 h2 v h3
    simp [youtubeKey, h1, h2, h3, orElseVideo]
  · intro h
    simp [youtubeKey, h, orElseVideo]
  · intro hne
    cases hY : results.filter isYoutube with
    | nil => exact absurd hY hne
    | cons y rest =>
      have hsel : ∃ v, v ∈ results.filter isYoutube ∧ youtubeKey results = v.key := by
        cases h1 : (results.filter isYoutube).find? (hasType "trailer") with
        | some v =>
          exact ⟨v, List.mem_of_find?_eq_some h1, by simp [youtubeKey, h1, orElseVideo]⟩
        | none =>
          cases h2 : (results.filter isYoutube).find? (hasType "teaser") with
          | some v =>
            exact ⟨v, List.mem_of_find?_eq_some h2, by simp [youtubeKey, h1, h2, orElseVideo]⟩
          | none =>
            refine ⟨y, by rw [hY]; exact List.mem_cons_self _ _, ?_⟩
            simp only [youtubeKey, h1, h2, orElseVideo]
            rw [hY]
            rfl
      obtain ⟨v, hv, hsel⟩ := hsel
      obtain ⟨k, hk, hk'⟩ := hkey v hv
      exact ⟨k, by rw [hsel, hk], hk'⟩

/-- Witness for C8: a clip and a teaser on YouTube and a trailer hosted elsewhere; the teaser is
selected. -/
theorem youtubeKey_priority_witness :
    youtubeKey [⟨some "YouTube", some "Clip", some "c1"⟩, ⟨some "Vimeo", some "Trailer", some "v1"⟩,
      ⟨some "YouTube", some "Teaser", some "t1"⟩] = some "t1" :=
  (youtubeKey_priority [⟨some "YouTube", some "Clip", some "c1"⟩,
    ⟨some "Vimeo", some "Trailer", some "v1"⟩, ⟨some "YouTube", some "Teaser", some "t1"⟩]).2.1
    (by decide) ⟨some "YouTube", some "Teaser", some "t1"⟩ (by decide)

/-! ## User lists -/

theorem strictEq_iff_eq_of_primitive (a b : JsVal) (hb : b.isPrimitive = true) :
    JsVal.strictEq a b = true ↔ a = b := by
  cases a <;> cases b <;> simp [JsVal.strictEq, JsVal.isPrimitive] at hb ⊢

theorem any_match_iff (items : List ListItem) (item : ListItem)
    (hid : item.id.isPrimitive = true) (hty : item.type.isPrimitive = true) :
    items.any (fun x => JsVal.strictEq x.id item.id && JsVal.strictEq x.type item.type) = true ↔
      ∃ x ∈ items, samePair x item := by
  simp only [List.any_eq_true, Bool.and_eq_true, strictEq_iff_eq_of_primitive _ _ hid,
    strictEq_iff_eq_of_primitive _ _ hty, samePair]

/-- Appending, unless present, an item with primitive `id` and `type`: the shared step of `like`
and `addToMyList`. -/
theorem push_unless_present (items : List ListItem) (item : ListItem)
    (hid : item.id.isPrimitive = true) (hty : item.type.isPrimitive = true) :
    (items.Pairwise (fun a b => ¬ samePair a b) →
      (if !items.any (fun x => JsVal.strictEq x.id item.id && JsVal.strictEq x.type item.type)
        then items ++ [item] else items).Pairwise (fun a b => ¬ samePair a b)) ∧
    ((∀ x ∈ items, ¬ samePair x item) →
      items.any (fun x => JsVal.strictEq x.id item.id && JsVal.strictEq x.type item.type) = false ∧
      (items ++ [item]).any
        (fun x => JsVal.strictEq x.id item.id && JsVal.strictEq x.type item.type) = true ∧
      ((items ++ [item]).filter (fun x => decide (samePair x item))).length = 1) := by
  constructor
  · intro hpw
    by_cases hany :
        items.any (fun x => JsVal.strictEq x.id item.id && JsVal.strictEq x.type item.type) = true
    · simp [hany, hpw]
    · have hnone : ∀ x ∈ items, ¬ samePair x item := fun x hx hsame =>
        hany ((any_match_iff items item hid hty).2 ⟨x, hx, hsame⟩)
      simp only [Bool.not_eq_true] at hany
      simp only [hany, Bool.not_false, if_true]
      rw [List.pairwise_append]
      exact ⟨hpw, List.pairwise_singleton _ _, fun a ha b hb => by
        rw [List.mem_singleton] at hb
        subst hb
        exact hnone a ha⟩
  · intro hnone
    have hany :
        items.any (fun x => JsVal.strictEq x.id item.id && JsVal.strictEq x.type item.type)
          = false := by
      rw [← Bool.not_eq_true]
      intro h
      obtain ⟨x, hx, hsame⟩ := (any_match_iff items item hid hty).1 h
      exact hnone x hx hsame
    refine ⟨hany, ?_, ?_⟩
    · exact (any_match_iff _ item hid hty).2
        ⟨item, List.mem_append_right _ (List.mem_singleton_self _), rfl, rfl⟩
    · have hfilter : items.filter (fun x => decide (samePair x item)) = [] := by
        rw [List.filter_eq_nil_iff]
        intro x hx
        simpa using hnone x hx
      rw [List.filter_append, hfilter]
      simp [samePair]

/-- C9 (as the code behaves): for an item that `normalizeItem` accepts and whose `id` and `type`
are primitive values (number, string, boolean), if the liked list has no entry with its
`(id, type)` then the first `like` appends it, the second `like` leaves the list as the first
left it, and exactly one entry carries that `(id, type)`; `like` preserves the invariant that
no two entries share an `(id, type)` pair; and the same holds for `addToMyList` on `myList`. -/
theorem like_idempotent (user : User) (data : ItemData) (item : ListItem)
    (hitem : normalizeItem (some data) = some item)
    (hid : item.id.isPrimitive = true) (hty : item.type.isPrimitive = true) :
    ((∀ x ∈ user.liked, ¬ samePair x item) →
      like (some user) (some data) = .ok { user with liked := user.liked ++ [item] } ∧
      like (some { user with liked := user.liked ++ [item] }) (some data)
        = .ok { user with liked := user.liked ++ [item] } ∧
      ((user.liked ++ [item]).filter (fun x => decide (samePair x item))).length = 1) ∧
    (user.liked.Pairwise (fun a b => ¬ samePair a b) →
      ∃ u, like (some user) (some data) = .ok u ∧
        u.liked.Pairwise (fun a b => ¬ samePair a b)) ∧
    ((∀ x ∈ user.myList, ¬ samePair x item) →
      addToMyList (some user) (some data) = .ok { user with myList := user.myList ++ [item] } ∧
      addToMyList (some { user with myList := user.myList ++ [item] }) (some data)
        = .ok { user with myList := user.myList ++ [item] } ∧
      ((user.myList ++ [item]).filter (fun x => decide (samePair x item))).length = 1) ∧
    (user.myList.Pairwise (fun a b => ¬ samePair a b) →
      ∃ u, addToMyList (some user) (some data) = .ok u ∧
        u.myList.Pairwise (fun a b => ¬ samePair a b)) := by
  refine ⟨?_, ?_, ?_, ?_⟩
  · intro hnone
    obtain ⟨h1, h2, h3⟩ := (push_unless_present user.liked item hid hty).2 hnone
    refine ⟨?_, ?_, h3⟩
    · simp only [like, hitem, h1, Bool.not_false, if_true]
    · simp only [like, hitem, h2, Bool.not_true]
      rfl
  · intro hpw
    have h := (push_unless_present user.liked item hid hty).1 hpw
    by_cases hany : user.liked.any
        (fun x => JsVal.strictEq x.id item.id && JsVal.strictEq x.type item.type) = true
    · refine ⟨user, ?_, hpw⟩
      simp only [like, hitem, hany, Bool.not_true]
      rfl
    · simp only [Bool.not_eq_true] at hany
      refine ⟨{ user with liked := user.liked ++ [item] }, ?_, ?_⟩
      · simp only [like, hitem, hany, Bool.not_false, if_true]
      · simpa [hany] using h
  · intro hnone
    obtain ⟨h1, h2, h3⟩ := (push_unless_present user.myList item hid hty).2 hnone
    refine ⟨?_, ?_, h3⟩
    · simp only [addToMyList, hitem, h1, Bool.not_false, if_true]
    · simp only [addToMyList, hitem, h2, Bool.not_true]
      rfl
  · intro hpw
    have h := (push_unless_present user.myList item hid hty).1 hpw
    by_cases hany : user.myList.any
        (fun x => JsVal.strictEq x.id item.id && JsVal.strictEq x.type item.type) = true
    · refine ⟨user, ?_, hpw⟩
      simp only [addToMyList, hitem, hany, Bool.not_true]
      rfl
    · simp only [Bool.not_eq_true] at hany
      refine ⟨{ user with myList := user.myList ++ [item] }, ?_, ?_⟩
      · simp only [addToMyList, hitem, hany, Bool.not_false, if_true]
      · simpa [hany] using h

/-- Witness for C9: liking movie 550 twice, starting from a list that holds a TV item. -/
theorem like_idempotent_witness :
    like (some ⟨[⟨.num 1399, .str "tv", .str "GoT", .str "", .str "2011", .null, []⟩,
        ⟨.num 550, .str "movie", .str "Fight Club", .str "", .str "", .null, []⟩], []⟩)
      (some ⟨.num 550, .undefined, .str "Fight Club", .undefined, .undefined, .undefined,
        .undefined, none⟩)
    = .ok ⟨[⟨.num 1399, .str "tv", .str "GoT", .str "", .str "2011", .null, []⟩,
        ⟨.num 550, .str "movie", .str "Fight Club", .str "", .str "", .null, []⟩], []⟩ :=
  ((like_idempotent ⟨[⟨.num 1399, .str "tv", .str "GoT", .str "", .str "2011", .null, []⟩], []⟩
    ⟨.num 550, .undefined, .str "Fight Club", .undefined, .undefined, .undefined, .undefined, none⟩
    ⟨.num 550, .str "movie", .str "Fight Club", .str "", .str "", .null, []⟩
    rfl rfl rfl).1 (by decide)).2.1

/-- C9 as stated fails for an item whose `id` is an object or array: `normalizeItem` accepts it,
`===` never finds it in the stored list, and the second `like` appends a second entry with the
same `(id, type)`. -/
theorem like_twice_duplicates_object_id :
    normalizeItem (some ⟨.object "[550]", .str "movie", .str "Fight Club", .undefined, .undefined,
        .undefined, .undefined, none⟩)
      = some ⟨.object "[550]", .str "movie", .str "Fight Club", .str "", .str "", .null, []⟩ ∧
    like (some ⟨[], []⟩) (some ⟨.object "[550]", .str "movie", .str "Fight Club", .undefined,
        .undefined, .undefined, .undefined, none⟩)
      = .ok ⟨[⟨.object "[550]", .str "movie", .str "Fight Club", .str "", .str "", .null, []⟩], []⟩ ∧
    like (some ⟨[⟨.object "[550]", .str "movie", .str "Fight Club", .str "", .str "", .null, []⟩],
        []⟩) (some ⟨.object "[550]", .str "movie", .str "Fight Club", .undefined,
        .undefined, .undefined, .undefined, none⟩)
      = .ok ⟨[⟨.object "[550]", .str "movie", .str "Fight Club", .str "", .str "", .null, []⟩,
          ⟨.object "[550]", .str "movie", .str "Fight Club", .str "", .str "", .null, []⟩], []⟩ := by
  refine ⟨rfl, rfl, rfl⟩

/-! ## Error translation -/

/-- C10 (as the code behaves): `toHttpError` never returns normally. It sets the response
status to 429 exactly when the upstream status is 429 and to 502 otherwise. It throws the
credentials message for an upstream 401 or 403 and the rate-limit message for 429. For any other
non-zero status `s` it throws `TMDB error (s): m`, where `m` is the upstream message: the first
non-empty of `response.data.status_message` and `response.data.message`, else `err.message`
(printed as `undefined` when that is missing too). When the error carries no status, or a
status of 0, it throws the fallback message passed by the handler, or the generic one when none
was passed. -/
theorem toHttpError_always_throws (err : UpstreamError) (fallbackMessage : Option String) :
    (∃ msg, (toHttpError err fallbackMessage).2 = .error msg) ∧
    (toHttpError err fallbackMessage).1 = (if err.status = some 429 then 429 else 502) ∧
    (err.status = some 401 ∨ err.status = some 403 →
      (toHttpError err fallbackMessage).2
        = .error "TMDB rejected the request (check TMDB_API_KEY)") ∧
    (err.status = some 429 →
      (toHttpError err fallbackMessage).2
        = .error "Too many requests to TMDB. Please try again in a moment.") ∧
    (∀ s, err.status = some s → s ≠ 0 → s ≠ 401 → s ≠ 403 → s ≠ 429 →
      (∀ m, err.statusMessage = some m → m ≠ "" →
        (toHttpError err fallbackMessage).2
          = .error ("TMDB error (" ++ Nat.repr s ++ "): " ++ m)) ∧
      (err.statusMessage = none ∨ err.statusMessage = some "" →
        ∀ m, err.dataMessage = some m → m ≠ "" →
          (toHttpError err fallbackMessage).2
            = .error ("TMDB error (" ++ Nat.repr s ++ "): " ++ m)) ∧
      (err.statusMessage = none ∨ err.statusMessage = some "" →
        err.dataMessage = none ∨ err.dataMessage = some "" →
        ∀ m, err.message = some m →
          (toHttpError err fallbackMessage).2
            = .error ("TMDB error (" ++ Nat.repr s ++ "): " ++ m)) ∧
      (err.statusMessage = none ∨ err.statusMessage = some "" →
        err.dataMessage = none ∨ err.dataMessage = some "" →
        err.message = none →
          (toHttpError err fallbackMessage).2
            = .error ("TMDB error (" ++ Nat.repr s ++ "): " ++ "undefined"))) ∧
    (err.status = none ∨ err.status = some 0 →
      (∀ fb, fallbackMessage = some fb → fb ≠ "" →
        (toHttpError err fallbackMessage).2 = .error fb) ∧
      (fallbackMessage = none ∨ fallbackMessage = some "" →
        (toHttpError err fallbackMessage).2 = .error "Upstream TMDB request failed")) := by
  obtain ⟨status, sm, dm, m⟩ := err
  have hfb : (∀ fb, fallbackMessage = some fb → fb ≠ "" →
        jsOrD fallbackMessage "Upstream TMDB request failed" = fb) ∧
      (fallbackMessage = none ∨ fallbackMessage = some "" →
        jsOrD fallbackMessage "Upstream TMDB request failed" = "Upstream TMDB request failed") := by
    constructor
    · intro fb h hne
      simp [jsOrD, h, hne]
    · rintro (h | h) <;> simp [jsOrD, h]
  cases status with
  | none =>
    refine ⟨⟨_, rfl⟩, by simp [toHttpError], by simp, by simp, by simp, ?_⟩
    intro _
    refine ⟨?_, ?_⟩
    · intro fb h hne
      simp [toHttpError, hfb.1 fb h hne]
    · intro h
      simp [toHttpError, hfb.2 h]
  | some s =>
    by_cases h401 : s = 401
    · subst h401; simp [toHttpError]
    · by_cases h403 : s = 403
      · subst h403; simp [toHttpError]
      · by_cases h429 : s = 429
        · subst h429; simp [toHttpError]
        · by_cases h0 : s = 0
          · subst h0
            refine ⟨⟨_, rfl⟩, by simp [toHttpError], by simp, by simp, by simp, ?_⟩
            intro _
            refine ⟨?_, ?_⟩
            · intro fb h hne
              simp [toHttpError, hfb.1 fb h hne]
            · intro h
              simp [toHttpError, hfb.2 h]
          · have hrun : (toHttpError ⟨some s, sm, dm, m⟩ fallbackMessage).2 =
                .error ("TMDB error (" ++ Nat.repr s ++ "): " ++
                  interpolate (jsOr (jsOr sm dm) m)) := by
              simp [toHttpError, h401, h403, h429, h0]
            refine ⟨⟨_, hrun⟩, by simp [toHttpError, h401, h403, h429, h0],
              by simp [h401, h403], by simp [h429], ?_, by simp [h0]⟩
            intro s' hs' _ _ _ _
            simp only [Option.some.injEq] at hs'
            subst hs'
            rw [hrun]
            refine ⟨?_, ?_, ?_, ?_⟩
            · intro m' hsm hne
              simp only at hsm
              subst hsm
              simp [jsOr, truthy, hne, interpolate]
            · intro hsm m' hdm hne
              simp only at hsm hdm
              subst hdm
              rcases hsm with h | h <;> subst h <;> simp [jsOr, truthy, hne, interpolate]
            · intro hsm hdm m' hm
              simp only at hsm hdm hm
              subst hm
              rcases hsm with h | h <;> rcases hdm with h' | h' <;> subst h <;> subst h' <;>
                simp [jsOr, truthy, interpolate]
            · intro hsm hdm hm
              simp only at hsm hdm hm
              subst hm
              rcases hsm with h | h <;> rcases hdm with h' | h' <;> subst h <;> subst h' <;>
                simp [jsOr, truthy, interpolate]

/-- Witness for C10: an upstream 404 with a status message. -/
theorem toHttpError_always_throws_witness :
    (toHttpError ⟨some 404, some "The resource you requested could not be found.", none,
        some "Request failed with status code 404"⟩ (some "Failed to fetch trailer")).2
      = .error "TMDB error (404): The resource you requested could not be found." :=
  ((toHttpError_always_throws ⟨some 404, some "The resource you requested could not be found.",
    none, some "Request failed with status code 404"⟩ (some "Failed to fetch trailer")).2.2.2.2.1
    404 rfl (by decide) (by decide) (by decide) (by decide)).1
    "The resource you requested could not be found." rfl (by decide)

/-- C10 as stated fails for an error object whose status is 0: `if (status)` is false, so the
message is the fallback message and carries neither the status nor the upstream message. -/
theorem toHttpError_status_zero :
    toHttpError ⟨some 0, some "Service offline", none, some "Request failed"⟩
        (some "Failed to fetch genres")
      = (502, .error "Failed to fetch genres") ∧
    toHttpError ⟨some 0, some "Service offline", none, some "Request failed"⟩ none
      = (502, .error "Upstream TMDB request failed") := by
  exact ⟨rfl, rfl⟩

/-! ## Bounded concurrency mapper, failing mapper -/

theorem pendingWorkers_nil_of_countP (ws : List (Option Nat))
    (h : ws.countP Option.isSome = 0) : pendingWorkers ws = [] := by
  by_contra hne
  obtain ⟨w, hw⟩ := List.exists_mem_of_ne_nil _ hne
  obtain ⟨c, hc⟩ := (mem_pendingWorkers _ _).1 hw
  have hmem : some c ∈ ws := List.mem_iff_getElem?.2 ⟨w, hc⟩
  have hpos : 0 < ws.countP Option.isSome := List.countP_pos_iff.2 ⟨some c, hmem, rfl⟩
  omega

theorem countP_map_some (l : List Nat) : (l.map some).countP Option.isSome = l.length := by
  induction l with
  | nil => rfl
  | cons a rest ih => simp [List.countP_cons, ih]

theorem mapperSettlesE_inv {α ε β : Type} (items : List α) (limit : Nat)
    (mapper : α → Nat → Except ε β) (s : MapLimitFailState ε β) (w : Nat)
    (hinv : MapLimitFailInv items limit mapper s) (hw : w ∈ pendingWorkers s.st.workers) :
    MapLimitFailInv items limit mapper (mapperSettlesE items mapper w s) ∧
      mapLimitMeasure items (mapperSettlesE items mapper w s).st + 1
        = mapLimitMeasure items s.st := by
  obtain ⟨c, hc⟩ := (mem_pendingWorkers _ _).1 hw
  have hcmem : some c ∈ s.st.workers := List.mem_iff_getElem?.2 ⟨w, hc⟩
  have hcidx : c < s.st.idx := hinv.claimed c hcmem
  have hcn : c < items.length := lt_of_lt_of_le hcidx hinv.idx_le
  have hwlt : w < s.st.workers.length := by
    by_contra hge
    rw [List.getElem?_eq_none (by omega)] at hc
    cases hc
  have hitem : items[c]? = some items[c] := List.getElem?_eq_getElem hcn
  have hgetD : s.st.workers.getD w none = some c := by
    rw [List.getD_eq_getElem?_getD, hc]; rfl
  cases hm : mapper items[c] c with
  | error e =>
    have hstep : mapperSettlesE items mapper w s =
        { st := { s.st with workers := s.st.workers.set w none }
          failures := s.failures ++ [(c, e)] } := by
      simp only [mapperSettlesE, hgetD, hitem, hm]
    rw [hstep]
    have hbound : (s.st.workers.set w none).countP Option.isSome + (s.failures ++ [(c, e)]).length
        ≤ min limit items.length := by
      have h1 := countP_set_none _ _ _ hc
      have h2 := hinv.bounded
      rw [List.length_append, List.length_singleton]
      omega
    refine ⟨⟨hinv.len, hinv.idx_le, hinv.calls, ?_, ?_, ?_, ?_, ?_, hbound⟩, ?_⟩
    · intro c' hc'
      rcases List.mem_or_eq_of_mem_set hc' with h | h
      · exact hinv.claimed c' h
      · cases h
    · intro i x v hi hx hv
      rcases hinv.slots i x v hi hx hv with h | h
      · exact Or.inl h
      · right
        have hic : i ≠ c := by
          intro hEq
          subst hEq
          rw [hitem] at hx
          cases hx
          rw [hm] at hv
          cases hv
        exact mem_set_of_mem_ne _ _ _ _ _ hc h hic
    · intro i x e' hi hx he'
      show (i, e') ∈ s.failures ++ [(c, e)] ∨ some i ∈ s.st.workers.set w none
      by_cases hic : i = c
      · subst hic
        rw [hitem] at hx
        cases hx
        rw [hm] at he'
        cases he'
        exact Or.inl (List.mem_append_right _ (List.mem_singleton_self _))
      · rcases hinv.settled i x e' hi hx he' with h | h
        · exact Or.inl (List.mem_append_left _ h)
        · exact Or.inr (mem_set_of_mem_ne _ _ _ _ _ hc h hic)
    · intro i e' hmem
      have hmem' : (i, e') ∈ s.failures ++ [(c, e)] := hmem
      rcases List.mem_append.1 hmem' with h | h
      · exact hinv.sound i e' h
      · rw [List.mem_singleton] at h
        cases h
        exact ⟨hcidx, items[c], hitem, hm⟩
    · intro hlt
      show (s.st.workers.set w none).countP Option.isSome + (s.failures ++ [(c, e)]).length
        = min limit items.length
      have h1 := countP_set_none _ _ _ hc
      have h2 := hinv.live hlt
      rw [List.length_append, List.length_singleton]
      omega
    · show (items.length - s.st.idx) + (s.st.workers.set w none).countP Option.isSome + 1
        = (items.length - s.st.idx) + s.st.workers.countP Option.isSome
      have := countP_set_none _ _ _ hc
      omega
  | ok v =>
    have hstep : mapperSettlesE items mapper w s =
        { s with
          st := workerLoop items w { s.st with results := s.st.results.set c (some v) } } := by
      simp only [mapperSettlesE, hgetD, hitem, hm]
    rw [hstep]
    have hslot : ∀ i x v', i < s.st.idx → items[i]? = some x → mapper x i = .ok v' →
        (s.st.results.set c (some v))[i]? = some (some v') ∨ (i ≠ c ∧ some i ∈ s.st.workers) := by
      intro i x v' hi hx hv'
      by_cases hic : i = c
      · subst hic
        left
        rw [hitem] at hx
        cases hx
        rw [hm] at hv'
        cases hv'
        rw [List.getElem?_set_self (by rw [hinv.len]; exact hcn)]
      · rcases hinv.slots i x v' hi hx hv' with h | h
        · left
          rw [List.getElem?_set_ne (Ne.symm hic)]
          exact h
        · exact Or.inr ⟨hic, h⟩
    have hsettled : ∀ i x e, i < s.st.idx → items[i]? = some x → mapper x i = .error e →
        (i, e) ∈ s.failures ∨ (i ≠ c ∧ some i ∈ s.st.workers) := by
      intro i x e hi hx he
      rcases hinv.settled i x e hi hx he with h | h
      · exact Or.inl h
      · right
        refine ⟨?_, h⟩
        intro hEq
        subst hEq
        rw [hitem] at hx
        cases hx
        rw [hm] at he
        cases he
    by_cases hidx : s.st.idx < items.length
    · simp only [workerLoop, hidx, if_true]
      have hbound : (s.st.workers.set w (some s.st.idx)).countP Option.isSome + s.failures.length
          ≤ min limit items.length := by
        rw [countP_set_some _ _ _ _ hc]
        exact hinv.bounded
      refine ⟨⟨?_, ?_, ?_, ?_, ?_, ?_, ?_, ?_, hbound⟩, ?_⟩
      · simp [hinv.len]
      · exact hidx
      · show s.st.invoked ++ [s.st.idx] = List.range (s.st.idx + 1)
        rw [hinv.calls, List.range_succ]
      · intro c' hc'
        show c' < s.st.idx + 1
        rcases List.mem_or_eq_of_mem_set hc' with h | h
        · exact Nat.lt_succ_of_lt (hinv.claimed c' h)
        · cases h
          exact Nat.lt_succ_self _
      · intro i x v' hi hx hv'
        show (s.st.results.set c (some v))[i]? = some (some v') ∨
          some i ∈ s.st.workers.set w (some s.st.idx)
        have hi' : i < s.st.idx + 1 := hi
        by_cases hlast : i = s.st.idx
        · right
          rw [hlast]
          exact mem_set_self_of_lt _ _ _ hwlt
        · rcases hslot i x v' (by omega) hx hv' with h | ⟨hic, h⟩
          · exact Or.inl h
          · exact Or.inr (mem_set_of_mem_ne _ _ _ _ _ hc h hic)
      · intro i x e hi hx he
        show (i, e) ∈ s.failures ∨ some i ∈ s.st.workers.set w (some s.st.idx)
        have hi' : i < s.st.idx + 1 := hi
        by_cases hlast : i = s.st.idx
        · right
          rw [hlast]
          exact mem_set_self_of_lt _ _ _ hwlt
        · rcases hsettled i x e (by omega) hx he with h | ⟨hic, h⟩
          · exact Or.inl h
          · exact Or.inr (mem_set_of_mem_ne _ _ _ _ _ hc h hic)
      · intro i e hmem
        obtain ⟨h1, h2⟩ := hinv.sound i e hmem
        exact ⟨Nat.lt_succ_of_lt h1, h2⟩
      · intro hlt
        show (s.st.workers.set w (some s.st.idx)).countP Option.isSome + s.failures.length
          = min limit items.length
        rw [countP_set_some _ _ _ _ hc]
        exact hinv.live hidx
      · show (items.length - (s.st.idx + 1)) +
          (s.st.workers.set w (some s.st.idx)).countP Option.isSome + 1
          = (items.length - s.st.idx) + s.st.workers.countP Option.isSome
        rw [countP_set_some _ _ _ _ hc]
        omega
    · simp only [workerLoop, hidx, if_false]
      have hbound : (s.st.workers.set w none).countP Option.isSome + s.failures.length
          ≤ min limit items.length := by
        have h1 := countP_set_none _ _ _ hc
        have h2 := hinv.bounded
        omega
      refine ⟨⟨?_, ?_, ?_, ?_, ?_, ?_, ?_, ?_, hbound⟩, ?_⟩
      · simp [hinv.len]
      · exact hinv.idx_le
      · exact hinv.calls
      · intro c' hc'
        rcases List.mem_or_eq_of_mem_set hc' with h | h
        · exact hinv.claimed c' h
        · cases h
      · intro i x v' hi hx hv'
        rcases hslot i x v' hi hx hv' with h | ⟨hic, h⟩
        · exact Or.inl h
        · exact Or.inr (mem_set_of_mem_ne _ _ _ _ _ hc h hic)
      · intro i x e hi hx he
        rcases hsettled i x e hi hx he with h | ⟨hic, h⟩
        · exact Or.inl h
        · exact Or.inr (mem_set_of_mem_ne _ _ _ _ _ hc h hic)
      · exact hinv.sound
      · intro h
        exact absurd h hidx
      · show (items.length - s.st.idx) + (s.st.workers.set w none).countP Option.isSome + 1
          = (items.length - s.st.idx) + s.st.workers.countP Option.isSome
        have := countP_set_none _ _ _ hc
        omega

theorem mapLimitStartE_inv {α ε β : Type} (items : List α) (limit : Nat)
    (mapper : α → Nat → Except ε β) :
    MapLimitFailInv items limit mapper
        ({ st := mapLimitStart items limit, failures := [] } : MapLimitFailState ε β) ∧
      mapLimitMeasure items (mapLimitStart items limit : MapLimitState β) = items.length := by
  have hstart : (mapLimitStart items limit : MapLimitState β) = _ :=
    mapLimitStart_fold items (min limit items.length) (Nat.min_le_right _ _)
  rw [hstart]
  have hk := Nat.min_le_right limit items.length
  refine ⟨⟨?_, ?_, ?_, ?_, ?_, ?_, ?_, ?_, ?_⟩, ?_⟩
  · simp
  · exact hk
  · rfl
  · intro c hc
    obtain ⟨j, hj, hjc⟩ := List.mem_map.1 hc
    cases hjc
    exact List.mem_range.1 hj
  · intro i x v hi _ _
    exact Or.inr (List.mem_map.2 ⟨i, List.mem_range.2 hi, rfl⟩)
  · intro i x e hi _ _
    exact Or.inr (List.mem_map.2 ⟨i, List.mem_range.2 hi, rfl⟩)
  · intro i e hmem
    cases hmem
  · intro _
    show ((List.range (min limit items.length)).map some).countP Option.isSome + 0
      = min limit items.length
    rw [countP_map_some, List.length_range]
    rfl
  · show ((List.range (min limit items.length)).map some).countP Option.isSome + 0
      ≤ min limit items.length
    rw [countP_map_some, List.length_range]
    exact Nat.le_refl _
  · show (items.length - min limit items.length) +
      ((List.range (min limit items.length)).map some).countP Option.isSome = items.length
    rw [countP_map_some, List.length_range]
    omega

theorem mapLimitRunE_inv {α ε β : Type} (items : List α) (limit : Nat)
    (mapper : α → Nat → Except ε β) (sched : Nat → Nat) (fuel : Nat) :
    ∀ (step : Nat) (s : MapLimitFailState ε β), MapLimitFailInv items limit mapper s →
      mapLimitMeasure items s.st ≤ fuel →
      MapLimitFailInv items limit mapper (mapLimitRunE items mapper sched fuel step s) ∧
        pendingWorkers (mapLimitRunE items mapper sched fuel step s).st.workers = [] := by
  induction fuel with
  | zero =>
    intro step s hinv hm
    have hrun : mapLimitRunE items mapper sched 0 step s = s := rfl
    rw [hrun]
    refine ⟨hinv, pendingWorkers_nil_of_countP _ ?_⟩
    unfold mapLimitMeasure at hm
    omega
  | succ fuel ih =>
    intro step s hinv hm
    cases hp : pendingWorkers s.st.workers with
    | nil =>
      have hrun : mapLimitRunE items mapper sched (fuel + 1) step s = s := by
        simp only [mapLimitRunE, hp]
      rw [hrun]
      exact ⟨hinv, hp⟩
    | cons p ps =>
      have hrun : mapLimitRunE items mapper sched (fuel + 1) step s =
          mapLimitRunE items mapper sched fuel (step + 1)
            (mapperSettlesE items mapper
              ((p :: ps).getD (sched step % (p :: ps).length) p) s) := by
        simp only [mapLimitRunE, hp]
      rw [hrun]
      have hmem : (p :: ps).getD (sched step % (p :: ps).length) p ∈ pendingWorkers s.st.workers := by
        rw [hp]
        have hlt : sched step % (p :: ps).length < (p :: ps).length :=
          Nat.mod_lt _ (by simp)
        rw [List.getD_eq_getElem?_getD, List.getElem?_eq_getElem hlt]
        exact List.getElem_mem hlt
      obtain ⟨hinv', hm'⟩ := mapperSettlesE_inv items limit mapper s _ hinv hmem
      exact ih (step + 1) _ hinv' (by omega)

theorem mapLimitSettled_inv {α ε β : Type} (items : List α) (limit : Nat)
    (mapper : α → Nat → Except ε β) (sched : Nat → Nat) :
    MapLimitFailInv items limit mapper (mapLimitSettled items limit mapper sched) ∧
      pendingWorkers (mapLimitSettled items limit mapper sched).st.workers = [] := by
  obtain ⟨hinv0, hm0⟩ := mapLimitStartE_inv (ε := ε) (β := β) items limit mapper
  exact mapLimitRunE_inv items limit mapper sched items.length 0 _ hinv0 (le_of_eq hm0)

theorem not_mem_of_pendingWorkers_nil (ws : List (Option Nat)) (h : pendingWorkers ws = [])
    (c : Nat) : some c ∉ ws := by
  intro hc
  obtain ⟨j, hj⟩ := List.mem_iff_getElem?.1 hc
  have : j ∈ pendingWorkers ws := (mem_pendingWorkers _ _).2 ⟨c, hj⟩
  rw [h] at this
  cases this

/-- C11 (as the code behaves): for every list `items`, every `limit`, every mapper and every
completion order, `mapLimit` settles once at most `items.length` mapper calls have settled. If
a mapper invocation failed then `mapLimit` fails (its outcome carries an error and no results),
and the error is that of an invocation that failed; if none failed it returns the results. A
failed invocation ends only the worker that made it, so at most `min(limit, items.length)`
invocations fail; the other workers are not stopped: when every call has settled, either every
index has been claimed or every worker has ended on a failed invocation of its own. -/
theorem mapLimitE_failure_propagates {α ε β : Type} (items : List α) (limit : Nat)
    (mapper : α → Nat → Except ε β) (sched : Nat → Nat) :
    mapLimitE items limit mapper sched
      = some (mapLimitOutcome (mapLimitSettled items limit mapper sched),
          (mapLimitSettled items limit mapper sched).st.invoked) ∧
    (∀ i ∈ (mapLimitSettled items limit mapper sched).st.invoked, ∀ x e,
      items[i]? = some x → mapper x i = .error e →
      ∃ e', mapLimitOutcome (mapLimitSettled items limit mapper sched) = .error e') ∧
    (∀ e, mapLimitOutcome (mapLimitSettled items limit mapper sched) = .error e →
      ∃ i ∈ (mapLimitSettled items limit mapper sched).st.invoked, ∃ x,
        items[i]? = some x ∧ mapper x i = .error e) ∧
    ((mapLimitSettled items limit mapper sched).failures = [] →
      ∃ results, mapLimitOutcome (mapLimitSettled items limit mapper sched) = .ok results ∧
        results.length = items.length ∧
        ∀ i ∈ (mapLimitSettled items limit mapper sched).st.invoked, ∀ x v,
          items[i]? = some x → mapper x i = .ok v → results[i]? = some (some v)) ∧
    (mapLimitSettled items limit mapper sched).failures.length ≤ min limit items.length ∧
    ((mapLimitSettled items limit mapper sched).st.invoked = List.range items.length ∨
      (mapLimitSettled items limit mapper sched).failures.length = min limit items.length) := by
  obtain ⟨hinv, hpend⟩ := mapLimitSettled_inv items limit mapper sched
  have hnone := not_mem_of_pendingWorkers_nil _ hpend
  have hcount : (mapLimitSettled items limit mapper sched).st.workers.countP Option.isSome = 0 := by
    by_contra hne
    obtain ⟨a, ha, hsome⟩ := List.countP_pos_iff.1 (Nat.pos_of_ne_zero hne)
    obtain ⟨c, hc⟩ := Option.isSome_iff_exists.1 hsome
    exact hnone c (hc ▸ ha)
  have hmemIdx : ∀ i, i ∈ (mapLimitSettled items limit mapper sched).st.invoked ↔
      i < (mapLimitSettled items limit mapper sched).st.idx := by
    intro i
    rw [hinv.calls, List.mem_range]
  refine ⟨?_, ?_, ?_, ?_, ?_, ?_⟩
  · simp only [mapLimitE, hpend, if_true]
  · intro i hi x e hx he
    rcases hinv.settled i x e ((hmemIdx i).1 hi) hx he with h | h
    · cases hf : (mapLimitSettled items limit mapper sched).failures with
      | nil => rw [hf] at h; cases h
      | cons f rest =>
        obtain ⟨j, e'⟩ := f
        exact ⟨e', by simp only [mapLimitOutcome, hf]⟩
    · exact absurd h (hnone i)
  · intro e he
    cases hf : (mapLimitSettled items limit mapper sched).failures with
    | nil =>
      simp only [mapLimitOutcome, hf] at he
      cases he
    | cons f rest =>
      obtain ⟨j, e'⟩ := f
      simp only [mapLimitOutcome, hf] at he
      cases he
      obtain ⟨hj, x, hx, hm⟩ := hinv.sound j e (by rw [hf]; exact List.mem_cons_self _ _)
      exact ⟨j, (hmemIdx j).2 hj, x, hx, hm⟩
  · intro hf
    refine ⟨_, by simp only [mapLimitOutcome, hf], hinv.len, ?_⟩
    intro i hi x v hx hv
    rcases hinv.slots i x v ((hmemIdx i).1 hi) hx hv with h | h
    · exact h
    · exact absurd h (hnone i)
  · have := hinv.bounded
    omega
  · by_cases hidx : (mapLimitSettled items limit mapper sched).st.idx < items.length
    · right
      have := hinv.live hidx
      omega
    · left
      rw [hinv.calls]
      have := hinv.idx_le
      have hEq : (mapLimitSettled items limit mapper sched).st.idx = items.length := by omega
      rw [hEq]

/-- Witness for C11: three items, two workers, the mapper failing on index 1 and the first
pending call always completing first. The call fails with the error of index 1. -/
theorem mapLimitE_failure_propagates_witness :
    ∃ e', mapLimitOutcome (mapLimitSettled ["a", "b", "c"] 2
      (fun (x : String) (i : Nat) => if i = 1 then Except.error "boom" else Except.ok (x ++ "!"))
      (fun _ => 0)) = .error e' :=
  (mapLimitE_failure_propagates ["a", "b", "c"] 2
    (fun (x : String) (i : Nat) => if i = 1 then Except.error "boom" else Except.ok (x ++ "!"))
    (fun _ => 0)).2.1 1 (by decide) "b" "boom" rfl rfl

/-- C11 as stated fails: with three items and two workers, the call on index 0 fails first,
while only the indices 0 and 1 are in progress; the call on index 1 then succeeds and its
worker claims index 2, on which the mapper is invoked after the failure. -/
theorem mapLimitE_claims_after_failure :
    (mapLimitRunE ["a", "b", "c"]
        (fun (x : String) (i : Nat) => if i = 0 then Except.error "boom" else Except.ok (x ++ "!"))
        (fun _ => 0) 1 0 ⟨mapLimitStart ["a", "b", "c"] 2, []⟩).failures = [(0, "boom")] ∧
    (mapLimitRunE ["a", "b", "c"]
        (fun (x : String) (i : Nat) => if i = 0 then Except.error "boom" else Except.ok (x ++ "!"))
        (fun _ => 0) 1 0 ⟨mapLimitStart ["a", "b", "c"] 2, []⟩).st.invoked = [0, 1] ∧
    mapLimitE ["a", "b", "c"] 2
        (fun (x : String) (i : Nat) => if i = 0 then Except.error "boom" else Except.ok (x ++ "!"))
        (fun _ => 0) = some (.error "boom", [0, 1, 2]) := by
  refine ⟨rfl, rfl, rfl⟩

theorem mapperSettlesE_of_total {α ε β : Type} (items : List α) (f : α → Nat → β) (w : Nat)
    (st : MapLimitState β) :
    mapperSettlesE items (fun x i => (Except.ok (f x i) : Except ε β)) w
        { st := st, failures := [] }
      = { st := mapperSettles items f w st, failures := [] } := by
  cases h1 : st.workers.getD w none with
  | none => simp only [mapperSettlesE, mapperSettles, h1]
  | some current =>
    cases h2 : items[current]? with
    | none => simp only [mapperSettlesE, mapperSettles, h1, h2]
    | some item => simp only [mapperSettlesE, mapperSettles, h1, h2]

theorem mapLimitRunE_of_total {α ε β : Type} (items : List α) (f : α → Nat → β)
    (sched : Nat → Nat) (fuel : Nat) : ∀ (step : Nat) (st : MapLimitState β),
    mapLimitRunE items (fun x i => (Except.ok (f x i) : Except ε β)) sched fuel step
        { st := st, failures := [] }
      = { st := mapLimitRun items f sched fuel step st, failures := [] } := by
  induction fuel with
  | zero => intro step st; rfl
  | succ fuel ih =>
    intro step st
    cases hp : pendingWorkers st.workers with
    | nil => simp only [mapLimitRunE, mapLimitRun, hp]
    | cons p ps =>
      simp only [mapLimitRunE, mapLimitRun, hp]
      rw [mapperSettlesE_of_total, ih]

/-- With a mapper that never fails the run is the run of `mapLimit`: the call returns the same
results after the same mapper invocations. -/
theorem mapLimitE_of_total {α ε β : Type} (items : List α) (limit : Nat) (f : α → Nat → β)
    (sched : Nat → Nat) :
    mapLimitE items limit (fun x i => (Except.ok (f x i) : Except ε β)) sched
      = (mapLimit items limit f sched).map (fun r => (Except.ok r.1, r.2)) := by
  unfold mapLimitE mapLimit mapLimitSettled
  rw [mapLimitRunE_of_total]
  by_cases hp : pendingWorkers
      (mapLimitRun items f sched items.length 0 (mapLimitStart items limit)).workers = []
  · simp [hp, mapLimitOutcome]
  · simp [hp]

end Netify
